import Mathlib

/-!
# A verification model of `flexcalc` (flexcalc.c)

`flexcalc` computes a flexibility score for an MD trajectory given in a
simple text format (`>header` lines followed by `x y z` coordinate lines).
It makes four passes over the input file:

1. `CountFrames`   : count the header lines;
2. `CalculateMeanCoords` : per-atom mean of the coordinates over all frames;
3. `FindClosestToMean`   : the frame with the lowest RMSD to the mean frame;
4. `CalculateMeanRMSD`   : the mean over all frames of the RMSD to that
   closest frame; this mean is printed with `%.4f`.

This file is a shallow embedding of `flexcalc.c`.  Conventions:

* C `REAL` (double) coordinate arithmetic is idealized as exact arithmetic
  over `ℚ`; RMSD values (which involve `sqrt`) live in `ℝ`.
* The input file is modelled as a `List Line`, a line being either a
  header line (first character `'>'`) or a coordinate line (any other
  line; `sscanf` parses three reals from it).
* The `FRAME` linked list is a `List Coord`.
* The stateful reader `ReadFrame` (static buffer + `firstEntry` flag,
  reset between passes by `ReadFrame(NULL, NULL)`) is modelled by
  `ReadFrames`, which produces the entire sequence of frames a pass's
  `while((frame = ReadFrame(in, header)) != NULL)` loop consumes,
  together with the value of the caller's `header` buffer at each
  iteration (`none` models the buffer never having been written, which
  happens for the very first frame: on the first call `firstEntry` is
  true and `ReadFrame` does not copy the pending header out).
* Fatal paths (`NULL` returns, the `-1.0` sentinel of `RMSFrame` /
  `CalculateMeanRMSD`) are modelled with `Option` / `Except`.
* `exit`/`printf`/`fprintf(stderr, ...)` effects are collected in a
  `RunOutput` record: exit code, the score printed to stdout (if any),
  whether `Usage()` ran, and the list of `Msg(msg, submsg)` calls.
-/

namespace Flexcalc

/-- Decidable equality for `Except` results, so that the model's pass
results can be evaluated on concrete inputs by `decide`. -/
instance {ε α : Type} [DecidableEq ε] [DecidableEq α] :
    DecidableEq (Except ε α) := fun x y =>
  match x, y with
  | .ok a, .ok b =>
    if h : a = b then .isTrue (by rw [h]) else .isFalse (by simp [h])
  | .error a, .error b =>
    if h : a = b then .isTrue (by rw [h]) else .isFalse (by simp [h])
  | .ok _, .error _ => .isFalse (by simp)
  | .error _, .ok _ => .isFalse (by simp)

/-- One coordinate triple: the `REAL x, y, z` fields of `FRAME`. -/
structure Coord where
  x : ℚ
  y : ℚ
  z : ℚ
deriving DecidableEq, Repr

/-- The zero coordinate (used when zeroing the seed of the mean frame). -/
def zeroCoord : Coord := ⟨0, 0, 0⟩

/-- A `FRAME` linked list: an ordered list of coordinate triples. -/
abbrev Frame := List Coord

/-- One line of the trajectory file: a header line (first char `'>'`) or a
coordinate line holding a parsed `x y z` triple. -/
inductive Line where
  | header (s : String)
  | coord (c : Coord)
deriving DecidableEq, Repr

/-- Does the line start with the header marker `'>'`?  (The test
`buffer[0] == '>'` of `CountFrames` and `ReadFrame`.) -/
def isHeaderLine : Line → Bool
  | .header _ => true
  | .coord _ => false

/-- Build the line list of a trajectory given as a list of
`(header, coordinates)` records, in the input format of `flexcalc`:
each record contributes its header line followed by its coordinate
lines. -/
def mkInput (traj : List (String × Frame)) : List Line :=
  traj.flatMap (fun p => Line.header p.1 :: p.2.map Line.coord)

/-- `CountFrames` (flexcalc.c): one pass over the file counting the lines
whose first character is `'>'`. -/
def CountFrames (lines : List Line) : ℕ :=
  (lines.filter isHeaderLine).length

/-- The reader loop of `ReadFrame` after the first header line has been
consumed (`firstEntry == FALSE`): each step of this function is one
`ReadFrame` call.  `acc` is the (reversed) coordinate list already read
for the current frame, `pending` is the caller's `header` buffer for the
current frame (`none` = never written).  A header line with a nonempty
`acc` ends the current frame and becomes the next call's header; a header
line with an empty `acc` means `ReadFrame` returned `NULL` for an empty
frame, which every calling loop treats as end of stream.  At end of file
a nonempty `acc` is returned as a final frame. -/
def readFramesGo : List Line → List Coord → Option String → List (Option String × Frame)
  | [], [], _ => []
  | [], a :: acc, pending => [(pending, (a :: acc).reverse)]
  | Line.coord c :: rest, acc, pending => readFramesGo rest (c :: acc) pending
  | Line.header _ :: _, [], _ =>
    -- current `ReadFrame` call returns NULL (frame with no coordinates):
    -- the consuming loop stops, everything after is never read
    []
  | Line.header h :: rest, a :: acc, pending =>
    (pending, (a :: acc).reverse) :: readFramesGo rest [] (some h)

/-- The first `ReadFrame` call after a reset (`firstEntry == TRUE`): lines
are consumed (coordinate lines are accumulated!) until the first header
line is seen, which flips `firstEntry` without ending the frame; the
caller's `header` buffer is not written for this frame. -/
def readFramesStart : List Line → List Coord → List (Option String × Frame)
  | [], [] => []
  | [], a :: acc => [(none, (a :: acc).reverse)]
  | Line.coord c :: rest, acc => readFramesStart rest (c :: acc)
  | Line.header _ :: rest, acc => readFramesGo rest acc none

/-- The full sequence of frames a pass reads: the results of successive
`ReadFrame` calls (after `ReadFrame(NULL, NULL)` reset and `rewind`),
paired with the caller's `header` buffer contents at each call, stopping
at the first `NULL` return. -/
def ReadFrames (lines : List Line) : List (Option String × Frame) :=
  readFramesStart lines []

/-- Characterization of `ReadFrames ∘ mkInput` at the trajectory level:
frame `k` is produced as long as it has at least one coordinate line; the
first frame comes with an unwritten header buffer, frame `k ≥ 2` with its
own header line; the first zero-coordinate frame (and everything after
it) is dropped. -/
def readerOut : Option String → List (String × Frame) → List (Option String × Frame)
  | _, [] => []
  | pending, (_, f) :: rest =>
    if f = [] then []
    else
      (pending, f) ::
        (match rest with
         | [] => []
         | (h2, _) :: _ => readerOut (some h2) rest)

/-- The continuation of `readerOut` past its first record: the next
record's own header becomes the pending header. -/
def readerOutTail (rest : List (String × Frame)) : List (Option String × Frame) :=
  match rest with
  | [] => []
  | (h2, _) :: _ => readerOut (some h2) rest

/-- The squared Euclidean distance accumulated for one atom pair: the loop
body of `RMSFrame`. -/
def sqDist (p q : Coord) : ℚ :=
  (p.x - q.x) * (p.x - q.x) + (p.y - q.y) * (p.y - q.y) +
    (p.z - q.z) * (p.z - q.z)

/-- The accumulation loop of `RMSFrame`: walk both frames in lockstep
summing squared distances (stops at the shorter frame, as the C loop
does). -/
def sumSqDev : Frame → Frame → ℚ
  | [], _ => 0
  | _, [] => 0
  | p :: ps, q :: qs => sqDist p q + sumSqDev ps qs

/-- The mean squared deviation under the square root of `RMSFrame`, with
`RMSFrame`'s `-1.0` length-mismatch sentinel.  Comparisons of RMSD values
can equivalently be carried out on these values because `Real.sqrt` is
strictly monotone on nonnegatives (theorem `RMSFrame_lt_iff` below). -/
def MSDFrame (frame1 frame2 : Frame) : ℚ :=
  if frame1.length = frame2.length then sumSqDev frame1 frame2 / frame1.length
  else -1

/-- `RMSFrame` (flexcalc.c): `sqrt(rmsd/nCoor)` when both frames end
together, the `-1.0` sentinel when one frame ends before the other.
(For two equal frames of zero length C would compute `sqrt(0.0/0)`, a
NaN; in this model `0 / 0 = 0`.  No pass ever compares two empty frames:
`ReadFrame` returns `NULL` instead of an empty frame.) -/
noncomputable def RMSFrame (frame1 frame2 : Frame) : ℝ :=
  if frame1.length = frame2.length then
    Real.sqrt ((sumSqDev frame1 frame2 : ℝ) / (frame1.length : ℝ))
  else -1

/-- Pointwise sum of two coordinates. -/
def coordAdd (a b : Coord) : Coord := ⟨a.x + b.x, a.y + b.y, a.z + b.z⟩

/-- Scaling of a coordinate. -/
def coordSmul (q : ℚ) (c : Coord) : Coord := ⟨q * c.x, q * c.y, q * c.z⟩

/-- Pointwise sum of two frames. -/
def frameAdd (a b : Frame) : Frame := List.zipWith coordAdd a b

/-- Scaling of a frame. -/
def frameSmul (q : ℚ) (f : Frame) : Frame := f.map (coordSmul q)

/-- Sum of a list of frames of `n` atoms each, starting from the zero
frame. -/
def frameSumList (fs : List Frame) (n : ℕ) : Frame :=
  fs.foldr frameAdd (List.replicate n zeroCoord)

/-- Modelled from the spec: "a synthetic frame ... whose coordinates are
the per-atom arithmetic mean across all real frames" — atom `i` of the
result is the sum over the frames of atom `i`, divided by the frame count
`N`.  Used to state that `CalculateMeanCoords` refines the spec. -/
def specMeanFrame (fs : List Frame) (n : ℕ) (N : ℕ) : Frame :=
  frameSmul (1 / (N : ℚ)) (frameSumList fs n)

/-- The loop body of `AddFrame`: `f->x += (g->x / frameCount)` etc. -/
def addCoord (m g : Coord) (frameCount : ℕ) : Coord :=
  ⟨m.x + g.x / (frameCount : ℚ), m.y + g.y / (frameCount : ℚ),
    m.z + g.z / (frameCount : ℚ)⟩

/-- `AddFrame` (flexcalc.c): walk the mean frame and the new frame in
lockstep adding each coordinate divided by the frame count into the mean;
`none` models the `FALSE` return when one frame ends before the other
(the caller discards the partially updated mean in that case, so the
partial in-place update of the C code is unobservable). -/
def AddFrame (meanFrame frame : Frame) (frameCount : ℕ) : Option Frame :=
  if meanFrame.length = frame.length then
    some (List.zipWith (fun m g => addCoord m g frameCount) meanFrame frame)
  else none

/-- The read-accumulate loop of `CalculateMeanCoords`: on an `AddFrame`
failure the loop breaks and the function fails, with
`Msg(MSG_ATOMMISMATCH, header)` carrying the reader's header buffer for
the offending frame (the `Except` error value). -/
def accumFrames (frameCount : ℕ) :
    Frame → List (Option String × Frame) → Except (Option String) Frame
  | mean, [] => .ok mean
  | mean, (hdr, f) :: rest =>
    match AddFrame mean f frameCount with
    | some m => accumFrames frameCount m rest
    | none => .error hdr

/-- Failure of a pass, as observed by `main`: a `NULL` result without a
diagnostic (`nullResult`), or a `NULL` result preceded by
`Msg(MSG_ATOMMISMATCH, header)` (`mismatch`, carrying the header buffer
passed to `Msg`; `none` models a buffer that was never written). -/
inductive PassErr where
  | nullResult
  | mismatch (header : Option String)
deriving DecidableEq, Repr

/-- `CalculateMeanCoords` (flexcalc.c): read the first frame, zero its
coordinates to seed the mean frame, rewind, then `AddFrame` every frame
of the trajectory (the first frame again included) into the mean.  If the
first `ReadFrame` returns `NULL` the seed is `NULL` and the whole
function returns `NULL` without a diagnostic (the accumulation loop's
first `ReadFrame` call returns `NULL` again); on an `AddFrame` mismatch
the function prints the mismatch diagnostic and returns `NULL`. -/
def CalculateMeanCoords (lines : List Line) (frameCount : ℕ) :
    Except PassErr Frame :=
  match ReadFrames lines with
  | [] => .error .nullResult
  | (h1, f1) :: rest =>
    match accumFrames frameCount (f1.map (fun _ => zeroCoord)) ((h1, f1) :: rest) with
    | .ok mean => .ok mean
    | .error hdr => .error (.mismatch hdr)

/-- The selection loop of `FindClosestToMean` after the first frame was
copied as the provisional best: replace the best only on a strictly lower
RMSD to the mean frame.  The C code compares `RMSFrame` values; this
model compares the mean squared deviations, which orders identically
(`Real.sqrt` is strictly monotone on nonnegatives, theorem
`RMSFrame_lt_iff`), and checks the length mismatch that makes `RMSFrame`
negative explicitly. -/
def selectLoop (meanFrame : Frame) :
    Frame → ℚ → List (Option String × Frame) → Except PassErr Frame
  | best, _, [] => .ok best
  | best, lowest, (_, f) :: rest =>
    if meanFrame.length = f.length then
      if MSDFrame meanFrame f < lowest then
        selectLoop meanFrame f (MSDFrame meanFrame f) rest
      else selectLoop meanFrame best lowest rest
    else
      -- rmsd < 0.0: Msg(MSG_ATOMMISMATCH, header) and return NULL.  The
      -- `header` printed here is FindClosestToMean's out-parameter, which
      -- the function never writes (ReadFrame writes `thisHeader`), hence
      -- `none`: the message carries main's uninitialized buffer.
      .error (.mismatch none)

/-- `FindClosestToMean` (flexcalc.c): one pass retaining a copy of the
frame with the lowest RMSD to the mean frame, replacing the retained copy
only on a strict improvement; `NULL` without a diagnostic if the stream
has no frames. -/
def FindClosestToMean (lines : List Line) (meanFrame : Frame) :
    Except PassErr Frame :=
  match ReadFrames lines with
  | [] => .error .nullResult
  | (_, f1) :: rest =>
    if meanFrame.length = f1.length then
      selectLoop meanFrame f1 (MSDFrame meanFrame f1) rest
    else .error (.mismatch none)

/-- The loop of `CalculateMeanRMSD`, collecting the mean squared deviation
of every frame to the closest frame (their square roots are summed by
`CalculateMeanRMSD`); on the first length mismatch the loop stops,
printing `Msg(MSG_ATOMMISMATCH, header)` with the reader's header buffer
for the offending frame and returning the `-1.0` sentinel, modelled as
the `Except` error. -/
def rmsdLoop (closestFrame : Frame) :
    List (Option String × Frame) → Except (Option String) (List ℚ)
  | [] => .ok []
  | (hdr, f) :: rest =>
    if closestFrame.length = f.length then
      match rmsdLoop closestFrame rest with
      | .ok ms => .ok (MSDFrame closestFrame f :: ms)
      | .error e => .error e
    else .error hdr

/-- `CalculateMeanRMSD` (flexcalc.c): sum the RMSD of every frame to the
closest-to-mean frame and divide by the frame count.  The error carries
the header of the offending frame of the mismatch diagnostic; it models
the `-1.0` sentinel return (a successful result is a mean of square
roots, hence nonnegative — `calculateMeanRMSD_nonneg` below — so
`main`'s `< 0.0` test detects exactly the sentinel). -/
noncomputable def CalculateMeanRMSD (lines : List Line) (closestFrame : Frame)
    (frameCount : ℕ) : Except (Option String) ℝ :=
  match rmsdLoop closestFrame (ReadFrames lines) with
  | .ok ms => .ok ((ms.map (fun q : ℚ => Real.sqrt (q : ℝ))).sum / (frameCount : ℝ))
  | .error e => .error e

/-- The `MSG_ATOMMISMATCH` message text of flexcalc.c. -/
def MSG_ATOMMISMATCH : String :=
  "Number of coordinates in frame doesn't match first frame.\n  Frame Header: "

/-- The observable behaviour of one `flexcalc` run: the `exit`/`return`
code, the score printed to stdout by `printf("%.4f\n", meanRMSD)` (if
reached), whether `Usage()` was printed, and the `Msg(msg, submsg)`
diagnostics written to stderr in order (`none` as a submessage models an
uninitialized buffer being passed). -/
structure RunOutput where
  exitCode : ℕ
  stdoutScore : Option ℝ
  usagePrinted : Bool
  stderr : List (String × Option String)

/-- Passes 2–4 of `main` with a given frame count: each failing pass makes
`main` call `Die(...)`, i.e. print one more diagnostic and exit 1. -/
noncomputable def runPassesWith (lines : List Line) (frameCount : ℕ) : RunOutput :=
  match CalculateMeanCoords lines frameCount with
  | .error .nullResult =>
    ⟨1, none, false, [("Unable to calculate mean coordinates", some "")]⟩
  | .error (.mismatch h) =>
    ⟨1, none, false,
      [(MSG_ATOMMISMATCH, h), ("Unable to calculate mean coordinates", some "")]⟩
  | .ok meanFrame =>
    match FindClosestToMean lines meanFrame with
    | .error .nullResult =>
      -- Die("Couldn't find closest frame", header): main's header buffer
      -- is never written by FindClosestToMean, hence `none`.
      ⟨1, none, false, [("Couldn't find closest frame", none)]⟩
    | .error (.mismatch h) =>
      ⟨1, none, false,
        [(MSG_ATOMMISMATCH, h), ("Couldn't find closest frame", none)]⟩
    | .ok closestFrame =>
      match CalculateMeanRMSD lines closestFrame frameCount with
      | .error h =>
        ⟨1, none, false,
          [(MSG_ATOMMISMATCH, h), ("Unable to calculate mean RMSD", some "")]⟩
      | .ok r => ⟨0, some r, false, []⟩

/-- The body of `main` once the input file is open (flexcalc.c lines
120–141): count the frames, `Die("No frames in trajectory")` if fewer
than one, else run passes 2–4 and print the resulting score. -/
noncomputable def runPipeline (lines : List Line) : RunOutput :=
  if CountFrames lines < 1 then
    ⟨1, none, false, [("No frames in trajectory", some "")]⟩
  else runPassesWith lines (CountFrames lines)

/-- `ParseCmdLine` (flexcalc.c): skips the program name (`args` is already
`argv[1..]`), copies the first argument into `inFile` if there is one —
and returns `TRUE` unconditionally. -/
def ParseCmdLine (args : List String) : Bool × String :=
  match args with
  | [] => (true, "")
  | a :: _ => (true, a)

/-- All of `main`: parse the command line; on `TRUE` open the parsed file
name (the `fileLines` map models the file system, `none` = `fopen` fails)
and run the pipeline, doing nothing when the open fails; on `FALSE` print
the usage message.  Either way `main` returns 0. -/
noncomputable def runProgram (args : List String)
    (fileLines : String → Option (List Line)) : RunOutput :=
  if (ParseCmdLine args).1 then
    match fileLines (ParseCmdLine args).2 with
    | some lines => runPipeline lines
    | none => ⟨0, none, false, []⟩
  else ⟨0, none, true, []⟩

/-- The integer whose digits `printf("%.4f\n", x)` prints (after the
decimal point shift): `x` rounded to the nearest multiple of `1/10000`,
times `10000`.  (printf rounds to nearest; no value in the claims sits on
a tie, so the tie-breaking rule is irrelevant.) -/
noncomputable def round4 (x : ℝ) : ℤ := ⌊x * 10000 + 1 / 2⌋

/-! ## Reader lemmas: `ReadFrames` on well-formed trajectory inputs -/

/-- Unfolding `readerOut` on a record with at least one coordinate. -/
theorem readerOut_cons (pending : Option String) (h : String) (f : Frame)
    (rest : List (String × Frame)) (hf : f ≠ []) :
    readerOut pending ((h, f) :: rest) = (pending, f) :: readerOutTail rest := by
  cases rest with
  | nil => simp [readerOut, hf, readerOutTail]
  | cons q r => cases q with
    | mk h2 f2 => simp [readerOut, hf, readerOutTail]

/-- Unfolding `readerOut` on a record with no coordinates. -/
theorem readerOut_cons_nil (pending : Option String) (h : String)
    (rest : List (String × Frame)) :
    readerOut pending ((h, []) :: rest) = [] := by
  cases rest with
  | nil => simp [readerOut]
  | cons q r => simp [readerOut]

/-- A run of coordinate lines is absorbed into the current frame
accumulator of the reader. -/
theorem readFramesGo_coords (cs : List Coord) :
    ∀ (rest : List Line) (acc : List Coord) (pending : Option String),
      readFramesGo (cs.map Line.coord ++ rest) acc pending =
        readFramesGo rest (cs.reverse ++ acc) pending := by
  induction cs with
  | nil => intro rest acc pending; simp
  | cons c cs ih =>
    intro rest acc pending
    show readFramesGo (Line.coord c :: (cs.map Line.coord ++ rest)) acc pending = _
    rw [readFramesGo, ih rest (c :: acc) pending]
    simp [List.reverse_cons, List.append_assoc]

/-- From an empty frame accumulator, a trajectory-shaped input yields no
further frames: its first line (if any) is a header line, and a header
seen with no accumulated coordinates means `ReadFrame` returned `NULL`. -/
theorem readFramesGo_mkInput_nilAcc (traj : List (String × Frame))
    (pending : Option String) :
    readFramesGo (mkInput traj) [] pending = [] := by
  cases traj with
  | nil => simp [mkInput, readFramesGo]
  | cons p rest => cases p with
    | mk h f => simp [mkInput, readFramesGo]

/-- The reader, mid-stream with the coordinates of a nonempty frame
accumulated, emits that frame and continues through the rest of the
trajectory as described by `readerOutTail`. -/
theorem readFramesGo_mkInput (traj : List (String × Frame)) :
    ∀ (pending : Option String) (f1 : Frame), f1 ≠ [] →
      readFramesGo (mkInput traj) f1.reverse pending =
        (pending, f1) :: readerOutTail traj := by
  induction traj with
  | nil =>
    intro pending f1 hf1
    cases hr : f1.reverse with
    | nil => exact absurd (by simpa using congrArg List.reverse hr) hf1
    | cons a as =>
      have : (a :: as).reverse = f1 := by
        rw [← hr, List.reverse_reverse]
      simp [mkInput, readFramesGo, this, readerOutTail]
  | cons p rest ih =>
    intro pending f1 hf1
    cases p with
    | mk h2 f2 =>
      cases hr : f1.reverse with
      | nil => exact absurd (by simpa using congrArg List.reverse hr) hf1
      | cons a as =>
        have hrev : (a :: as).reverse = f1 := by
          rw [← hr, List.reverse_reverse]
        have hstep : mkInput ((h2, f2) :: rest) =
            Line.header h2 :: (f2.map Line.coord ++ mkInput rest) := by
          simp [mkInput]
        rw [hstep, ← hr]
        show readFramesGo (Line.header h2 :: (f2.map Line.coord ++ mkInput rest))
            f1.reverse pending = _
        rw [hr]
        simp only [readFramesGo, hrev]
        rw [readFramesGo_coords]
        by_cases hf2 : f2 = []
        · subst hf2
          simp only [List.reverse_nil, List.nil_append]
          rw [readFramesGo_mkInput_nilAcc]
          simp [readerOutTail, readerOut_cons_nil]
        · rw [List.append_nil, ih (some h2) f2 hf2]
          simp [readerOutTail, readerOut_cons _ _ _ _ hf2]

/-- Main reader characterization: on the line list built from a
trajectory, the sequence of frames the passes consume is `readerOut`. -/
theorem ReadFrames_mkInput (traj : List (String × Frame)) :
    ReadFrames (mkInput traj) = readerOut none traj := by
  cases traj with
  | nil => simp [ReadFrames, mkInput, readFramesStart, readerOut]
  | cons p rest =>
    cases p with
    | mk h1 f1 =>
      have hstep : mkInput ((h1, f1) :: rest) =
          Line.header h1 :: (f1.map Line.coord ++ mkInput rest) := by
        simp [mkInput]
      rw [ReadFrames, hstep]
      show readFramesStart (Line.header h1 :: (f1.map Line.coord ++ mkInput rest)) [] = _
      rw [readFramesStart]
      rw [readFramesGo_coords f1 (mkInput rest) [] none]
      by_cases hf1 : f1 = []
      · subst hf1
        simp only [List.reverse_nil, List.nil_append]
        rw [readFramesGo_mkInput_nilAcc, readerOut_cons_nil]
      · rw [List.append_nil, readFramesGo_mkInput rest none f1 hf1,
          readerOut_cons _ _ _ _ hf1]

/-- When every frame of a trajectory has at least one coordinate, the
reader delivers exactly the trajectory's frames, in order. -/
theorem readerOut_snd (traj : List (String × Frame))
    (hne : ∀ p ∈ traj, p.2 ≠ []) :
    ∀ pending, (readerOut pending traj).map Prod.snd = traj.map Prod.snd := by
  induction traj with
  | nil => intro pending; simp [readerOut]
  | cons p rest ih =>
    intro pending
    cases p with
    | mk h f =>
      have hf : f ≠ [] := hne (h, f) (by simp)
      rw [readerOut_cons pending h f rest hf]
      have hrest : ∀ p ∈ rest, p.2 ≠ [] := fun q hq => hne q (by simp [hq])
      cases rest with
      | nil => simp [readerOutTail]
      | cons q r =>
        cases q with
        | mk h2 f2 =>
          simp only [readerOutTail, List.map_cons]
          rw [ih hrest (some h2)]
          simp

/-- `readerOutTail` version of `readerOut_snd`. -/
theorem readerOutTail_snd (rest : List (String × Frame))
    (hne : ∀ p ∈ rest, p.2 ≠ []) :
    (readerOutTail rest).map Prod.snd = rest.map Prod.snd := by
  cases rest with
  | nil => simp [readerOutTail]
  | cons q r =>
    cases q with
    | mk h2 f2 => exact readerOut_snd ((h2, f2) :: r) hne (some h2)

/-- `CountFrames` counts every header line: one per trajectory record,
whether or not the record has coordinate lines. -/
theorem CountFrames_mkInput (traj : List (String × Frame)) :
    CountFrames (mkInput traj) = traj.length := by
  induction traj with
  | nil => simp [CountFrames, mkInput]
  | cons p rest ih =>
    cases p with
    | mk h f =>
      have hstep : mkInput ((h, f) :: rest) =
          Line.header h :: (f.map Line.coord ++ mkInput rest) := by
        simp [mkInput]
      rw [CountFrames, hstep]
      simp only [List.filter_cons, List.filter_append]
      have hcoords : (f.map Line.coord).filter isHeaderLine = [] := by
        induction f with
        | nil => simp
        | cons c cs ihc => simp [isHeaderLine, ihc]
      simp [isHeaderLine, hcoords, List.length_append]
      exact ih

/-! ## Frame algebra and the mean-coordinates pass -/

/-- Mapping the constant zero over a frame is replication. -/
theorem map_zero_replicate (f : Frame) :
    f.map (fun _ => zeroCoord) = List.replicate f.length zeroCoord := by
  induction f with
  | nil => simp
  | cons c cs ih => simp [ih, List.replicate_succ]

/-- Pointwise frame addition is associative. -/
theorem frameAdd_assoc : ∀ a b c : Frame,
    frameAdd (frameAdd a b) c = frameAdd a (frameAdd b c) := by
  intro a
  induction a with
  | nil => intro b c; simp [frameAdd]
  | cons x xs ih =>
    intro b c
    cases b with
    | nil => simp [frameAdd]
    | cons y ys =>
      cases c with
      | nil => simp [frameAdd]
      | cons z zs =>
        simp only [frameAdd, List.zipWith_cons_cons] at *
        refine congrArg₂ List.cons ?_ (ih ys zs)
        simp only [coordAdd, Coord.mk.injEq]
        exact ⟨by ring, by ring, by ring⟩

/-- Scaling distributes over pointwise frame addition. -/
theorem frameSmul_frameAdd (q : ℚ) : ∀ a b : Frame,
    frameSmul q (frameAdd a b) = frameAdd (frameSmul q a) (frameSmul q b) := by
  intro a
  induction a with
  | nil => intro b; simp [frameSmul, frameAdd]
  | cons x xs ih =>
    intro b
    cases b with
    | nil => simp [frameSmul, frameAdd]
    | cons y ys =>
      simp only [frameAdd, frameSmul, List.zipWith_cons_cons, List.map_cons] at *
      refine congrArg₂ List.cons ?_ (ih ys)
      simp only [coordAdd, coordSmul, Coord.mk.injEq]
      exact ⟨by ring, by ring, by ring⟩

/-- Adding the zero frame on the left is the identity. -/
theorem frameAdd_zero_left : ∀ (m : Frame) (n : ℕ), m.length = n →
    frameAdd (List.replicate n zeroCoord) m = m := by
  intro m
  induction m with
  | nil => intro n h; simp [frameAdd]
  | cons x xs ih =>
    intro n h
    cases n with
    | zero => simp at h
    | succ k =>
      simp only [List.replicate_succ, frameAdd, List.zipWith_cons_cons]
      have hk : xs.length = k := by simpa using h
      have hxs := ih k hk
      simp only [frameAdd] at hxs
      rw [hxs]
      cases x with
      | mk a b c => simp [coordAdd, zeroCoord]

/-- Scaling the zero frame gives the zero frame. -/
theorem frameSmul_zero_frame (q : ℚ) (n : ℕ) :
    frameSmul q (List.replicate n zeroCoord) = List.replicate n zeroCoord := by
  induction n with
  | zero => simp [frameSmul]
  | succ k ih =>
    simp only [frameSmul, List.replicate_succ, List.map_cons] at *
    rw [ih]
    simp [coordSmul, zeroCoord]

/-- Length of a pointwise frame sum. -/
theorem frameSumList_length (n : ℕ) : ∀ fs : List Frame,
    (∀ f ∈ fs, f.length = n) → (frameSumList fs n).length = n := by
  intro fs
  induction fs with
  | nil => intro h; simp [frameSumList]
  | cons f rest ih =>
    intro h
    have hrest : (frameSumList rest n).length = n :=
      ih (fun g hg => h g (by simp [hg]))
    simp only [frameSumList, List.foldr_cons] at *
    rw [frameAdd, List.length_zipWith, hrest, h f (by simp)]
    simp

/-- The loop body of `AddFrame` is pointwise addition of the
`1/frameCount`-scaled frame. -/
theorem zipWith_addCoord_eq (N : ℕ) : ∀ m f : Frame,
    List.zipWith (fun a g => addCoord a g N) m f =
      frameAdd m (frameSmul (1 / (N : ℚ)) f) := by
  intro m
  induction m with
  | nil => intro f; simp [frameAdd]
  | cons x xs ih =>
    intro f
    cases f with
    | nil => simp [frameAdd, frameSmul]
    | cons y ys =>
      simp only [List.zipWith_cons_cons, frameAdd, frameSmul, List.map_cons]
      refine congrArg₂ List.cons ?_ (ih ys)
      simp only [addCoord, coordAdd, coordSmul, Coord.mk.injEq]
      exact ⟨by ring, by ring, by ring⟩

/-- `AddFrame` on two frames of equal length. -/
theorem AddFrame_eq (m f : Frame) (N : ℕ) (h : m.length = f.length) :
    AddFrame m f N = some (frameAdd m (frameSmul (1 / (N : ℚ)) f)) := by
  rw [AddFrame, if_pos h, zipWith_addCoord_eq]

/-- Adding the zero frame on the right is the identity. -/
theorem frameAdd_zero_right : ∀ (m : Frame) (n : ℕ), m.length = n →
    frameAdd m (List.replicate n zeroCoord) = m := by
  intro m
  induction m with
  | nil => intro n h; simp [frameAdd]
  | cons x xs ih =>
    intro n h
    cases n with
    | zero => simp at h
    | succ k =>
      simp only [List.replicate_succ, frameAdd, List.zipWith_cons_cons]
      have hk : xs.length = k := by simpa using h
      have hxs := ih k hk
      simp only [frameAdd] at hxs
      rw [hxs]
      cases x with
      | mk a b c => simp [coordAdd, zeroCoord]

/-- The accumulation loop of `CalculateMeanCoords`, in closed form: when
every frame has `n` atoms, the loop adds the `1/N`-scaled frame sum to
its seed.  (In exact arithmetic, adding each coordinate divided by `N`
agrees with summing first and dividing once.) -/
theorem accumFrames_eq (N n : ℕ) : ∀ (fl : List (Option String × Frame)) (m : Frame),
    m.length = n → (∀ p ∈ fl, p.2.length = n) →
    accumFrames N m fl =
      .ok (frameAdd m (frameSmul (1 / (N : ℚ)) (frameSumList (fl.map Prod.snd) n))) := by
  intro fl
  induction fl with
  | nil =>
    intro m hm _
    simp only [accumFrames, List.map_nil, frameSumList, List.foldr_nil,
      frameSmul_zero_frame]
    rw [frameAdd_zero_right m n hm]
  | cons p rest ih =>
    intro m hm hl
    cases p with
    | mk hdr f =>
      have hf : f.length = n := hl (hdr, f) (by simp)
      have hmf : m.length = f.length := by rw [hm, hf]
      simp only [accumFrames, AddFrame_eq m f N hmf]
      have hm2 : (frameAdd m (frameSmul (1 / (N : ℚ)) f)).length = n := by
        rw [frameAdd, List.length_zipWith, frameSmul, List.length_map, hm, hf]
        simp
      rw [ih (frameAdd m (frameSmul (1 / (N : ℚ)) f)) hm2
        (fun q hq => hl q (by simp [hq]))]
      simp only [List.map_cons, frameSumList, List.foldr_cons]
      rw [frameSmul_frameAdd, ← frameAdd_assoc]

/-- `getD` of a replicated zero frame. -/
theorem replicate_getD (n i : ℕ) :
    (List.replicate n zeroCoord).getD i zeroCoord = zeroCoord := by
  induction n generalizing i with
  | zero => simp
  | succ k ih =>
    cases i with
    | zero => simp [List.replicate_succ]
    | succ j => simp [List.replicate_succ, ih]

/-- `getD` distributes over `zipWith` inside both bounds. -/
theorem getD_zipWith {α : Type} (g : α → α → α) (d : α) :
    ∀ (a b : List α) (i : ℕ), i < a.length → i < b.length →
      (List.zipWith g a b).getD i d = g (a.getD i d) (b.getD i d) := by
  intro a
  induction a with
  | nil => intro b i h _; simp at h
  | cons x xs ih =>
    intro b i h1 h2
    cases b with
    | nil => simp at h2
    | cons y ys =>
      cases i with
      | zero => simp
      | succ j =>
        simp only [List.zipWith_cons_cons, List.getD_cons_succ]
        exact ih ys j (by simpa using h1) (by simpa using h2)

/-- `getD` after `map`, inside the bound. -/
theorem getD_map {α β : Type} (g : α → β) (d : β) (d0 : α) :
    ∀ (l : List α) (i : ℕ), i < l.length →
      (l.map g).getD i d = g (l.getD i d0) := by
  intro l
  induction l with
  | nil => intro i h; simp at h
  | cons x xs ih =>
    intro i h
    cases i with
    | zero => simp
    | succ j => simp only [List.map_cons, List.getD_cons_succ]
                exact ih j (by simpa using h)

/-- Per-atom reading of the pointwise frame sum. -/
theorem frameSumList_getD (n : ℕ) : ∀ (fs : List Frame),
    (∀ f ∈ fs, f.length = n) → ∀ i, i < n →
    (frameSumList fs n).getD i zeroCoord =
      (fs.map (fun f => f.getD i zeroCoord)).foldr coordAdd zeroCoord := by
  intro fs
  induction fs with
  | nil => intro _ i _; simp [frameSumList, replicate_getD]
  | cons f rest ih =>
    intro h i hi
    have hf : f.length = n := h f (by simp)
    have hrest : ∀ g ∈ rest, g.length = n := fun g hg => h g (by simp [hg])
    have hlen : (frameSumList rest n).length = n := frameSumList_length n rest hrest
    simp only [frameSumList, List.foldr_cons, List.map_cons] at *
    rw [show List.foldr frameAdd (List.replicate n zeroCoord) rest =
        frameSumList rest n from rfl] at *
    rw [frameAdd, getD_zipWith coordAdd zeroCoord f (frameSumList rest n) i
      (by rw [hf]; exact hi) (by rw [hlen]; exact hi), ih hrest i hi]

/-- The mean-coordinates pass in closed form on a uniform trajectory:
seeding a zeroed copy of the first frame and adding every frame scaled by
`1/N` produces the `1/N`-scaled frame sum — the per-atom arithmetic mean
when `N` is the frame count. -/
theorem CalculateMeanCoords_mkInput (traj : List (String × Frame)) (n N : ℕ)
    (hn : 0 < n) (hlen : ∀ p ∈ traj, p.2.length = n) (hne : traj ≠ []) :
    CalculateMeanCoords (mkInput traj) N =
      .ok (specMeanFrame (traj.map Prod.snd) n N) := by
  cases traj with
  | nil => exact absurd rfl hne
  | cons p rest =>
    cases p with
    | mk h1 f1 =>
      have hf1 : f1.length = n := hlen (h1, f1) (by simp)
      have hf1ne : f1 ≠ [] := by
        intro hcon
        rw [hcon] at hf1
        simp at hf1
        omega
      have hread : ReadFrames (mkInput ((h1, f1) :: rest)) =
          (none, f1) :: readerOutTail rest := by
        rw [ReadFrames_mkInput, readerOut_cons _ _ _ _ hf1ne]
      have hrestlen : ∀ q ∈ readerOutTail rest, (q.2 : Frame).length = n := by
        intro q hq
        have hq2 : q.2 ∈ (readerOutTail rest).map Prod.snd :=
          List.mem_map_of_mem Prod.snd hq
        rw [readerOutTail_snd rest (fun r hr => by
          intro hcon
          have := hlen r (by simp [hr])
          rw [hcon] at this
          simp at this
          omega)] at hq2
        obtain ⟨r, hr, hr2⟩ := List.mem_map.mp hq2
        rw [← hr2]
        exact hlen r (by simp [hr])
      simp only [CalculateMeanCoords, hread]
      rw [map_zero_replicate, hf1]
      rw [accumFrames_eq N n ((none, f1) :: readerOutTail rest)
        (List.replicate n zeroCoord) (by simp)
        (by
          intro q hq
          rcases List.mem_cons.mp hq with hq1 | hq2
          · rw [hq1]; exact hf1
          · exact hrestlen q hq2)]
      simp only [List.map_cons, readerOutTail_snd rest (fun r hr => by
        intro hcon
        have := hlen r (by simp [hr])
        rw [hcon] at this
        simp at this
        omega)]
      rw [frameAdd_zero_left _ n (by
        rw [frameSmul, List.length_map]
        exact frameSumList_length n _ (by
          intro g hg
          rcases List.mem_cons.mp hg with hg1 | hg2
          · rw [hg1]; exact hf1
          · obtain ⟨r, hr, hr2⟩ := List.mem_map.mp hg2
            rw [← hr2]
            exact hlen r (by simp [hr])))]
      rfl

/-- C3: For every trajectory of `N ≥ 1` frames of uniform shape, the
mean-coordinates pass — seeding a zeroed copy of the first frame's shape
and adding each coordinate divided by the total frame count `N` into the
running mean — produces exactly the frame whose coordinate at each atom
position is the per-atom arithmetic mean across all frames. -/
theorem CalculateMeanCoords_per_atom_mean (traj : List (String × Frame)) (n : ℕ)
    (hn : 0 < n) (hlen : ∀ p ∈ traj, p.2.length = n) (hne : traj ≠ []) :
    CalculateMeanCoords (mkInput traj) traj.length =
      .ok (specMeanFrame (traj.map Prod.snd) n traj.length) ∧
    ∀ i, i < n →
      (specMeanFrame (traj.map Prod.snd) n traj.length).getD i zeroCoord =
        coordSmul (1 / (traj.length : ℚ))
          (((traj.map Prod.snd).map (fun f => f.getD i zeroCoord)).foldr
            coordAdd zeroCoord) := by
  have hall : ∀ f ∈ traj.map Prod.snd, f.length = n := by
    intro f hf
    obtain ⟨r, hr, hr2⟩ := List.mem_map.mp hf
    rw [← hr2]
    exact hlen r hr
  constructor
  · exact CalculateMeanCoords_mkInput traj n traj.length hn hlen hne
  · intro i hi
    rw [specMeanFrame, frameSmul,
      getD_map (coordSmul (1 / (traj.length : ℚ))) zeroCoord zeroCoord _ i
        (by rw [frameSumList_length n _ hall]; exact hi),
      frameSumList_getD n _ hall i hi]

/-- Witness for C3 at a concrete two-frame, one-atom trajectory. -/
theorem CalculateMeanCoords_per_atom_mean_witness :
    (0 : ℕ) < 1 ∧
    (∀ p ∈ ([("a", [⟨1, 2, 3⟩]), ("b", [⟨3, 4, 5⟩])] : List (String × Frame)),
      p.2.length = 1) ∧
    (CalculateMeanCoords
        (mkInput [("a", [⟨1, 2, 3⟩]), ("b", [⟨3, 4, 5⟩])]) 2 =
      .ok (specMeanFrame [[⟨1, 2, 3⟩], [⟨3, 4, 5⟩]] 1 2) ∧
    ∀ i, i < 1 →
      (specMeanFrame [[⟨1, 2, 3⟩], [⟨3, 4, 5⟩]] 1 2).getD i zeroCoord =
        coordSmul (1 / (2 : ℚ))
          ((([[⟨1, 2, 3⟩], [⟨3, 4, 5⟩]] : List Frame).map
            (fun f => f.getD i zeroCoord)).foldr coordAdd zeroCoord)) :=
  ⟨Nat.one_pos, by decide,
    CalculateMeanCoords_per_atom_mean
      [("a", [⟨1, 2, 3⟩]), ("b", [⟨3, 4, 5⟩])] 1 Nat.one_pos
      (by decide) (by decide)⟩

/-! ## The RMSD comparator -/

/-- The lockstep accumulation of `RMSFrame`, as an indexed sum, for two
frames of equal length. -/
theorem sumSqDev_eq_sum : ∀ f g : Frame, f.length = g.length →
    sumSqDev f g = ∑ i ∈ Finset.range f.length,
      sqDist (f.getD i zeroCoord) (g.getD i zeroCoord) := by
  intro f
  induction f with
  | nil => intro g h; simp [sumSqDev]
  | cons x xs ih =>
    intro g h
    cases g with
    | nil => simp at h
    | cons y ys =>
      have hlen : xs.length = ys.length := by simpa using h
      simp only [sumSqDev, List.length_cons]
      rw [Finset.sum_range_succ', ih ys hlen]
      simp [add_comm]

/-- The squared distance of one atom pair is nonnegative. -/
theorem sqDist_nonneg (p q : Coord) : 0 ≤ sqDist p q := by
  rw [sqDist]
  have h1 := mul_self_nonneg (p.x - q.x)
  have h2 := mul_self_nonneg (p.y - q.y)
  have h3 := mul_self_nonneg (p.z - q.z)
  linarith

/-- The accumulated squared deviation is nonnegative. -/
theorem sumSqDev_nonneg : ∀ f g : Frame, 0 ≤ sumSqDev f g := by
  intro f
  induction f with
  | nil => intro g; simp [sumSqDev]
  | cons x xs ih =>
    intro g
    cases g with
    | nil => simp [sumSqDev]
    | cons y ys => exact add_nonneg (sqDist_nonneg x y) (ih ys)

/-- The mean squared deviation of two equal-length frames is
nonnegative. -/
theorem MSDFrame_nonneg (f g : Frame) (h : f.length = g.length) :
    0 ≤ MSDFrame f g := by
  rw [MSDFrame, if_pos h]
  exact div_nonneg (sumSqDev_nonneg f g) (by positivity)

/-- On equal-length frames, `RMSFrame` is the square root of the mean
squared deviation. -/
theorem RMSFrame_eq_sqrt (f g : Frame) (h : f.length = g.length) :
    RMSFrame f g = Real.sqrt ((MSDFrame f g : ℚ) : ℝ) := by
  rw [RMSFrame, if_pos h, MSDFrame, if_pos h]
  push_cast
  rfl

/-- C2: the RMSD comparator returns
`sqrt((Σ squared atom distances)/n)` on two frames of equal length
`n ≥ 1` (a nonnegative real), and the distinct negative sentinel `-1.0`
on frames of different lengths — so a shape mismatch is distinguishable
from any valid (nonnegative) RMSD, including a valid zero. -/
theorem RMSFrame_spec (f g : Frame) :
    (f.length = g.length → 1 ≤ f.length →
      RMSFrame f g = Real.sqrt
        (((∑ i ∈ Finset.range f.length,
            sqDist (f.getD i zeroCoord) (g.getD i zeroCoord) : ℚ) : ℝ) /
          (f.length : ℝ)) ∧
      0 ≤ RMSFrame f g) ∧
    (f.length ≠ g.length → RMSFrame f g = -1 ∧ RMSFrame f g < 0) := by
  constructor
  · intro h _
    constructor
    · rw [RMSFrame, if_pos h, sumSqDev_eq_sum f g h]
    · rw [RMSFrame, if_pos h]
      exact Real.sqrt_nonneg _
  · intro h
    rw [RMSFrame, if_neg h]
    norm_num

/-- Witness for C2: equal-length frames give a nonnegative RMSD; a
mismatched pair gives the sentinel `-1`, which is negative. -/
theorem RMSFrame_spec_witness :
    ([⟨0, 0, 0⟩] : Frame).length = ([⟨1, 2, 2⟩] : Frame).length ∧
    ([⟨0, 0, 0⟩] : Frame).length ≠ ([] : Frame).length ∧
    0 ≤ RMSFrame [⟨0, 0, 0⟩] [⟨1, 2, 2⟩] ∧
    RMSFrame ([⟨0, 0, 0⟩] : Frame) [] = -1 ∧
    RMSFrame ([⟨0, 0, 0⟩] : Frame) [] < 0 :=
  ⟨rfl, by decide,
    ((RMSFrame_spec [⟨0, 0, 0⟩] [⟨1, 2, 2⟩]).1 rfl (by decide)).2,
    ((RMSFrame_spec [⟨0, 0, 0⟩] []).2 (by decide)).1,
    ((RMSFrame_spec [⟨0, 0, 0⟩] []).2 (by decide)).2⟩

/-! ## The nearest-to-mean selection pass -/

/-- Strict RMSD comparisons on frames of matching length reduce to
mean-squared-deviation comparisons: `Real.sqrt` is strictly monotone on
nonnegatives.  This justifies `selectLoop` comparing `MSDFrame` values
where the C code compares `RMSFrame` values. -/
theorem RMSFrame_lt_iff (m f g : Frame) (hf : m.length = f.length)
    (hg : m.length = g.length) :
    RMSFrame m f < RMSFrame m g ↔ MSDFrame m f < MSDFrame m g := by
  rw [RMSFrame_eq_sqrt m f hf, RMSFrame_eq_sqrt m g hg,
    Real.sqrt_lt_sqrt_iff (by exact_mod_cast MSDFrame_nonneg m f hf)]
  exact Rat.cast_lt

/-- Nonstrict version of `RMSFrame_lt_iff`. -/
theorem RMSFrame_le_iff (m f g : Frame) (hf : m.length = f.length)
    (hg : m.length = g.length) :
    RMSFrame m f ≤ RMSFrame m g ↔ MSDFrame m f ≤ MSDFrame m g := by
  rw [← not_lt, ← not_lt, RMSFrame_lt_iff m g f hg hf]

/-- The selection loop in closed form: starting from a provisional best
frame, it returns the earliest frame of `best :: frames` attaining the
minimum (mean-squared) deviation — every frame strictly before the
result is strictly worse, and no frame is better. -/
theorem selectLoop_spec (m : Frame) :
    ∀ (fl : List (Option String × Frame)) (best : Frame),
    m.length = best.length →
    (∀ p ∈ fl, m.length = (p.2 : Frame).length) →
    ∃ c pre post,
      selectLoop m best (MSDFrame m best) fl = .ok c ∧
      best :: fl.map Prod.snd = pre ++ c :: post ∧
      (∀ f ∈ pre, MSDFrame m c < MSDFrame m f) ∧
      (∀ f ∈ best :: fl.map Prod.snd, MSDFrame m c ≤ MSDFrame m f) := by
  intro fl
  induction fl with
  | nil =>
    intro best hb _
    exact ⟨best, [], [], rfl, rfl, by simp, by
      intro f hf
      rw [show f = best by simpa using hf]⟩
  | cons p rest ih =>
    intro best hb hl
    obtain ⟨hdr, f⟩ := p
    have hf : m.length = f.length := hl (hdr, f) (by simp)
    have hrest : ∀ q ∈ rest, m.length = (q.2 : Frame).length :=
      fun q hq => hl q (by simp [hq])
    by_cases himp : MSDFrame m f < MSDFrame m best
    · obtain ⟨c, pre, post, hsel, hdec, hpre, hmin⟩ := ih f hf hrest
      have hstep : selectLoop m best (MSDFrame m best) ((hdr, f) :: rest) =
          selectLoop m f (MSDFrame m f) rest := by
        rw [selectLoop, if_pos hf, if_pos himp]
      have hcf : MSDFrame m c ≤ MSDFrame m f := hmin f (by simp)
      refine ⟨c, best :: pre, post, hstep.trans hsel, ?_, ?_, ?_⟩
      · simp only [List.map_cons, List.cons_append]
        exact congrArg (List.cons best) hdec
      · intro g hg
        rcases List.mem_cons.mp hg with hg1 | hg2
        · rw [hg1]; exact lt_of_le_of_lt hcf himp
        · exact hpre g hg2
      · intro g hg
        rcases List.mem_cons.mp hg with hg1 | hg2
        · rw [hg1]; exact le_of_lt (lt_of_le_of_lt hcf himp)
        · exact hmin g hg2
    · obtain ⟨c, pre, post, hsel, hdec, hpre, hmin⟩ := ih best hb hrest
      have hbf : MSDFrame m best ≤ MSDFrame m f := le_of_not_lt himp
      have hstep : selectLoop m best (MSDFrame m best) ((hdr, f) :: rest) =
          selectLoop m best (MSDFrame m best) rest := by
        rw [selectLoop, if_pos hf, if_neg himp]
      cases pre with
      | nil =>
        obtain ⟨hc, hpost⟩ : best = c ∧ rest.map Prod.snd = post := by
          simpa using hdec
        refine ⟨c, [], f :: post, hstep.trans hsel, ?_, by simp, ?_⟩
        · simp only [List.map_cons, List.nil_append]
          rw [← hc, ← hpost]
        · intro g hg
          rcases List.mem_cons.mp hg with hg1 | hg2
          · rw [hg1]; exact hmin best (by simp)
          · rcases List.mem_cons.mp hg2 with hg3 | hg4
            · rw [hg3, ← hc]; exact hbf
            · exact hmin g (by simp [hg4])
      | cons b pre2 =>
        obtain ⟨hbb, hrest2⟩ : best = b ∧ rest.map Prod.snd = pre2 ++ c :: post := by
          simpa using hdec
        have hcb : MSDFrame m c < MSDFrame m best := by
          rw [hbb]; exact hpre b (by simp)
        refine ⟨c, best :: f :: pre2, post, hstep.trans hsel, ?_, ?_, ?_⟩
        · simp only [List.map_cons, List.cons_append]
          rw [hrest2]
        · intro g hg
          rcases List.mem_cons.mp hg with hg1 | hg2
          · rw [hg1]; exact hcb
          · rcases List.mem_cons.mp hg2 with hg3 | hg4
            · rw [hg3]; exact lt_of_lt_of_le hcb hbf
            · exact hpre g (by simp [hg4])
        · intro g hg
          rcases List.mem_cons.mp hg with hg1 | hg2
          · rw [hg1]; exact hmin best (by simp)
          · rcases List.mem_cons.mp hg2 with hg3 | hg4
            · rw [hg3]; exact le_of_lt (lt_of_lt_of_le hcb hbf)
            · exact hmin g (by simp [hg4])

/-- The selection pass on a uniform trajectory, in closed form (stated
with the decidable `MSDFrame` ordering). -/
theorem FindClosestToMean_mkInput (traj : List (String × Frame)) (n : ℕ)
    (m : Frame) (hn : 0 < n) (hm : m.length = n)
    (hlen : ∀ p ∈ traj, p.2.length = n) (hne : traj ≠ []) :
    ∃ c pre post,
      FindClosestToMean (mkInput traj) m = .ok c ∧
      traj.map Prod.snd = pre ++ c :: post ∧
      (∀ f ∈ pre, MSDFrame m c < MSDFrame m f) ∧
      (∀ f ∈ traj.map Prod.snd, MSDFrame m c ≤ MSDFrame m f) := by
  cases traj with
  | nil => exact absurd rfl hne
  | cons p rest =>
    cases p with
    | mk h1 f1 =>
      have hrne : ∀ r ∈ rest, (r.2 : Frame) ≠ [] := by
        intro r hr hcon
        have := hlen r (by simp [hr])
        rw [hcon] at this
        simp at this
        omega
      have hf1 : f1.length = n := hlen (h1, f1) (by simp)
      have hf1ne : f1 ≠ [] := by
        intro hcon
        rw [hcon] at hf1
        simp at hf1
        omega
      have hread : ReadFrames (mkInput ((h1, f1) :: rest)) =
          (none, f1) :: readerOutTail rest := by
        rw [ReadFrames_mkInput, readerOut_cons _ _ _ _ hf1ne]
      have hmf1 : m.length = f1.length := by rw [hm, hf1]
      have hl : ∀ q ∈ readerOutTail rest, m.length = (q.2 : Frame).length := by
        intro q hq
        have hq2 : q.2 ∈ (readerOutTail rest).map Prod.snd :=
          List.mem_map_of_mem Prod.snd hq
        rw [readerOutTail_snd rest hrne] at hq2
        obtain ⟨r, hr, hr2⟩ := List.mem_map.mp hq2
        rw [← hr2, hm]
        exact (hlen r (by simp [hr])).symm
      obtain ⟨c, pre, post, hsel, hdec, hpre, hmin⟩ :=
        selectLoop_spec m (readerOutTail rest) f1 hmf1 hl
      refine ⟨c, pre, post, ?_, ?_, hpre, ?_⟩
      · simp only [FindClosestToMean, hread, if_pos hmf1]
        exact hsel
      · rw [List.map_cons, ← readerOutTail_snd rest hrne]
        exact hdec
      · intro f hf
        apply hmin
        rw [List.map_cons, ← readerOutTail_snd rest hrne] at hf
        exact hf

/-- C4: on every uniform trajectory, the selection pass returns the frame
with the minimum RMSD to the supplied mean frame, and — because the
retained best is replaced only on a strict improvement — ties keep the
earliest-seen frame: every frame read before the returned one has
strictly larger RMSD. -/
theorem FindClosestToMean_first_min (traj : List (String × Frame)) (n : ℕ)
    (m : Frame) (hn : 0 < n) (hm : m.length = n)
    (hlen : ∀ p ∈ traj, p.2.length = n) (hne : traj ≠ []) :
    ∃ c pre post,
      FindClosestToMean (mkInput traj) m = .ok c ∧
      traj.map Prod.snd = pre ++ c :: post ∧
      (∀ f ∈ pre, RMSFrame m c < RMSFrame m f) ∧
      (∀ f ∈ traj.map Prod.snd, RMSFrame m c ≤ RMSFrame m f) := by
  obtain ⟨c, pre, post, hsel, hdec, hpre, hmin⟩ :=
    FindClosestToMean_mkInput traj n m hn hm hlen hne
  have hall : ∀ f ∈ traj.map Prod.snd, m.length = f.length := by
    intro f hf
    obtain ⟨r, hr, hr2⟩ := List.mem_map.mp hf
    rw [← hr2, hm]
    exact (hlen r hr).symm
  have hclen : m.length = c.length := hall c (by rw [hdec]; simp)
  refine ⟨c, pre, post, hsel, hdec, ?_, ?_⟩
  · intro f hf
    have hflen : m.length = f.length := hall f (by rw [hdec]; simp [hf])
    exact (RMSFrame_lt_iff m c f hclen hflen).mpr (hpre f hf)
  · intro f hf
    exact (RMSFrame_le_iff m c f hclen (hall f hf)).mpr (hmin f hf)

/-- Witness for C4 at a concrete two-frame trajectory and reference
frame. -/
theorem FindClosestToMean_first_min_witness :
    (0 : ℕ) < 1 ∧ ([⟨1, 0, 0⟩] : Frame).length = 1 ∧
    (∀ p ∈ ([(">a", [⟨0, 0, 0⟩]), (">b", [⟨2, 0, 0⟩])] : List (String × Frame)),
      p.2.length = 1) ∧
    ∃ c pre post,
      FindClosestToMean (mkInput [(">a", [⟨0, 0, 0⟩]), (">b", [⟨2, 0, 0⟩])])
        [⟨1, 0, 0⟩] = .ok c ∧
      ([(">a", ([⟨0, 0, 0⟩] : Frame)), (">b", [⟨2, 0, 0⟩])].map Prod.snd) =
        pre ++ c :: post ∧
      (∀ f ∈ pre, RMSFrame [⟨1, 0, 0⟩] c < RMSFrame [⟨1, 0, 0⟩] f) ∧
      (∀ f ∈ ([(">a", ([⟨0, 0, 0⟩] : Frame)), (">b", [⟨2, 0, 0⟩])].map Prod.snd),
        RMSFrame [⟨1, 0, 0⟩] c ≤ RMSFrame [⟨1, 0, 0⟩] f) :=
  ⟨Nat.one_pos, rfl, by decide,
    FindClosestToMean_first_min [(">a", [⟨0, 0, 0⟩]), (">b", [⟨2, 0, 0⟩])] 1
      [⟨1, 0, 0⟩] Nat.one_pos rfl (by decide) (by decide)⟩

/-! ## The mean-RMSD pass and the assembled pipeline -/

/-- The final pass's loop succeeds on shape-uniform input, collecting the
mean squared deviation of every frame to the closest frame. -/
theorem rmsdLoop_ok (c : Frame) : ∀ fl : List (Option String × Frame),
    (∀ p ∈ fl, c.length = (p.2 : Frame).length) →
    rmsdLoop c fl = .ok ((fl.map Prod.snd).map (MSDFrame c)) := by
  intro fl
  induction fl with
  | nil => intro _; rfl
  | cons p rest ih =>
    intro h
    obtain ⟨hdr, f⟩ := p
    have hf : c.length = f.length := h (hdr, f) (by simp)
    rw [rmsdLoop, if_pos hf, ih (fun q hq => h q (by simp [hq]))]
    rfl

/-- A successful mean RMSD is nonnegative: it is a mean of square roots.
This is why `main`'s `meanRMSD < 0.0` test detects exactly the `-1.0`
mismatch sentinel. -/
theorem CalculateMeanRMSD_nonneg (lines : List Line) (c : Frame) (N : ℕ) (r : ℝ)
    (h : CalculateMeanRMSD lines c N = .ok r) : 0 ≤ r := by
  rw [CalculateMeanRMSD] at h
  cases hml : rmsdLoop c (ReadFrames lines) with
  | error e => rw [hml] at h; exact absurd h (by simp)
  | ok ms =>
    rw [hml] at h
    have hr : (ms.map (fun q : ℚ => Real.sqrt (q : ℝ))).sum / (N : ℝ) = r := by
      simpa using h
    rw [← hr]
    apply div_nonneg _ (by positivity)
    apply List.sum_nonneg
    intro x hx
    obtain ⟨q, _, hq2⟩ := List.mem_map.mp hx
    rw [← hq2]
    exact Real.sqrt_nonneg _

/-- The assembled pipeline on a nonempty uniform trajectory: it succeeds,
prints no diagnostics, exits 0, and the printed score is the mean over
all frames of the RMSD to the selected closest frame. -/
theorem runPipeline_closed (traj : List (String × Frame)) (n : ℕ)
    (hn : 0 < n) (hlen : ∀ p ∈ traj, p.2.length = n) (hne : traj ≠ []) :
    ∃ c, FindClosestToMean (mkInput traj)
        (specMeanFrame (traj.map Prod.snd) n traj.length) = .ok c ∧
      c.length = n ∧
      runPipeline (mkInput traj) =
        ⟨0, some (((traj.map Prod.snd).map
            (fun f => Real.sqrt ((MSDFrame c f : ℚ) : ℝ))).sum / (traj.length : ℝ)),
          false, []⟩ := by
  have hcount : CountFrames (mkInput traj) = traj.length := CountFrames_mkInput traj
  have hpos : 0 < traj.length := List.length_pos.mpr hne
  have hmean : CalculateMeanCoords (mkInput traj) traj.length =
      .ok (specMeanFrame (traj.map Prod.snd) n traj.length) :=
    CalculateMeanCoords_mkInput traj n traj.length hn hlen hne
  have hall : ∀ f ∈ traj.map Prod.snd, f.length = n := by
    intro f hf
    obtain ⟨r, hr, hr2⟩ := List.mem_map.mp hf
    rw [← hr2]
    exact hlen r hr
  have hmlen : (specMeanFrame (traj.map Prod.snd) n traj.length).length = n := by
    rw [specMeanFrame, frameSmul, List.length_map]
    exact frameSumList_length n _ hall
  obtain ⟨c, pre, post, hsel, hdec, _, _⟩ :=
    FindClosestToMean_mkInput traj n
      (specMeanFrame (traj.map Prod.snd) n traj.length) hn hmlen hlen hne
  have hclen : c.length = n := hall c (by rw [hdec]; simp)
  have hrne : ∀ r ∈ traj, (r.2 : Frame) ≠ [] := by
    intro r hr hcon
    have := hlen r hr
    rw [hcon] at this
    simp at this
    omega
  have hreadsnd : (ReadFrames (mkInput traj)).map Prod.snd = traj.map Prod.snd := by
    rw [ReadFrames_mkInput]
    exact readerOut_snd traj hrne none
  have hloop : rmsdLoop c (ReadFrames (mkInput traj)) =
      .ok ((traj.map Prod.snd).map (MSDFrame c)) := by
    rw [rmsdLoop_ok c _ (by
      intro p hp
      have hp2 : p.2 ∈ (ReadFrames (mkInput traj)).map Prod.snd :=
        List.mem_map_of_mem Prod.snd hp
      rw [hreadsnd] at hp2
      rw [hclen]
      exact (hall p.2 hp2).symm), hreadsnd]
  have hrmsd : CalculateMeanRMSD (mkInput traj) c traj.length =
      .ok (((traj.map Prod.snd).map
        (fun f => Real.sqrt ((MSDFrame c f : ℚ) : ℝ))).sum / (traj.length : ℝ)) := by
    rw [CalculateMeanRMSD, hloop]
    show Except.ok _ = _
    rw [List.map_map]
    rfl
  refine ⟨c, hsel, hclen, ?_⟩
  rw [runPipeline, if_neg (by omega), hcount]
  rw [runPassesWith, hmean]
  simp only [hsel, hrmsd]

/-! ## Trajectories of identical frames -/

/-- Scaling by zero gives the zero frame. -/
theorem frameSmul_zero (f : Frame) :
    frameSmul 0 f = List.replicate f.length zeroCoord := by
  induction f with
  | nil => simp [frameSmul]
  | cons c cs ih =>
    simp only [frameSmul, List.map_cons, List.length_cons, List.replicate_succ] at *
    rw [ih]
    simp [coordSmul, zeroCoord]

/-- Adding a frame to a multiple of itself increments the multiple. -/
theorem frameAdd_smul_succ (k : ℚ) : ∀ f : Frame,
    frameAdd f (frameSmul k f) = frameSmul (k + 1) f := by
  intro f
  induction f with
  | nil => simp [frameAdd, frameSmul]
  | cons c cs ih =>
    simp only [frameAdd, frameSmul, List.map_cons, List.zipWith_cons_cons] at *
    rw [ih]
    refine congrArg₂ List.cons ?_ rfl
    simp only [coordAdd, coordSmul, Coord.mk.injEq]
    exact ⟨by ring, by ring, by ring⟩

/-- Composition of scalings. -/
theorem frameSmul_frameSmul (a b : ℚ) (f : Frame) :
    frameSmul a (frameSmul b f) = frameSmul (a * b) f := by
  induction f with
  | nil => simp [frameSmul]
  | cons c cs ih =>
    simp only [frameSmul, List.map_cons] at *
    rw [ih]
    refine congrArg₂ List.cons ?_ rfl
    simp only [coordSmul, Coord.mk.injEq]
    exact ⟨by ring, by ring, by ring⟩

/-- Scaling by one is the identity. -/
theorem frameSmul_one (f : Frame) : frameSmul 1 f = f := by
  induction f with
  | nil => simp [frameSmul]
  | cons c cs ih =>
    simp only [frameSmul, List.map_cons] at *
    rw [ih]
    cases c with
    | mk a b d => simp [coordSmul]

/-- The frame sum of a constant list. -/
theorem frameSumList_const (f : Frame) : ∀ fs : List Frame,
    (∀ g ∈ fs, g = f) →
    frameSumList fs f.length = frameSmul (fs.length : ℚ) f := by
  intro fs
  induction fs with
  | nil => simp [frameSumList, frameSmul_zero]
  | cons g rest ih =>
    intro h
    have hg : g = f := h g (by simp)
    have hrest : frameSumList rest f.length = frameSmul (rest.length : ℚ) f :=
      ih (fun q hq => h q (by simp [hq]))
    show frameAdd g (frameSumList rest f.length) = _
    rw [hg, hrest, frameAdd_smul_succ]
    simp only [List.length_cons]
    push_cast
    rfl

/-- The per-atom mean of `N ≥ 1` copies of a frame is that frame. -/
theorem specMeanFrame_const (f : Frame) (fs : List Frame) (hne : fs ≠ [])
    (h : ∀ g ∈ fs, g = f) :
    specMeanFrame fs f.length fs.length = f := by
  have hN : (fs.length : ℚ) ≠ 0 := by
    simp only [ne_eq, Nat.cast_eq_zero, List.length_eq_zero]
    exact hne
  rw [specMeanFrame, frameSumList_const f fs h, frameSmul_frameSmul,
    one_div, inv_mul_cancel₀ hN, frameSmul_one]

/-- A frame is at squared deviation zero from itself. -/
theorem MSDFrame_self (f : Frame) : MSDFrame f f = 0 := by
  have hs : ∀ g : Frame, sumSqDev g g = 0 := by
    intro g
    induction g with
    | nil => rfl
    | cons c cs ih =>
      simp only [sumSqDev, ih, add_zero, sqDist]
      ring
  rw [MSDFrame, if_pos rfl, hs]
  simp

/-- A frame is at RMSD zero from itself. -/
theorem RMSFrame_self (f : Frame) : RMSFrame f f = 0 := by
  rw [RMSFrame_eq_sqrt f f rfl, MSDFrame_self]
  simp

/-- The selection loop keeps its provisional best when no later frame
strictly improves on the current lowest value. -/
theorem selectLoop_keep (m : Frame) :
    ∀ (fl : List (Option String × Frame)) (best : Frame) (lowest : ℚ),
    (∀ p ∈ fl, m.length = (p.2 : Frame).length) →
    (∀ p ∈ fl, ¬ MSDFrame m p.2 < lowest) →
    selectLoop m best lowest fl = .ok best := by
  intro fl
  induction fl with
  | nil => intro best lowest _ _; rfl
  | cons p rest ih =>
    intro best lowest hlen himp
    obtain ⟨hdr, f⟩ := p
    rw [selectLoop, if_pos (hlen (hdr, f) (by simp)),
      if_neg (himp (hdr, f) (by simp))]
    exact ih best lowest (fun q hq => hlen q (by simp [hq]))
      (fun q hq => himp q (by simp [hq]))

/-- On a trajectory of identical frames, the selection pass returns that
frame. -/
theorem FindClosestToMean_const (traj : List (String × Frame)) (f : Frame)
    (hne : traj ≠ []) (hf : ∀ p ∈ traj, p.2 = f) (hfne : f ≠ []) :
    FindClosestToMean (mkInput traj) f = .ok f := by
  cases traj with
  | nil => exact absurd rfl hne
  | cons p rest =>
    cases p with
    | mk h1 f1 =>
      have hf1 : f1 = f := hf (h1, f1) (by simp)
      subst hf1
      have hread : ReadFrames (mkInput ((h1, f1) :: rest)) =
          (none, f1) :: readerOutTail rest := by
        rw [ReadFrames_mkInput, readerOut_cons _ _ _ _ hfne]
      have hrne : ∀ r ∈ rest, (r.2 : Frame) ≠ [] := by
        intro r hr
        rw [hf r (by simp [hr])]
        exact hfne
      have htailf : ∀ q ∈ readerOutTail rest, (q.2 : Frame) = f1 := by
        intro q hq
        have hq2 : q.2 ∈ (readerOutTail rest).map Prod.snd :=
          List.mem_map_of_mem Prod.snd hq
        rw [readerOutTail_snd rest hrne] at hq2
        obtain ⟨r, hr, hr2⟩ := List.mem_map.mp hq2
        rw [← hr2]
        exact hf r (by simp [hr])
      simp only [FindClosestToMean, hread, if_pos rfl]
      rw [MSDFrame_self]
      exact selectLoop_keep f1 (readerOutTail rest) f1 0
        (fun q hq => by rw [htailf q hq])
        (fun q hq => by rw [htailf q hq, MSDFrame_self]; simp)

/-- C9: a trajectory of `N ≥ 1` identical frames yields a mean frame
equal to that frame, a nearest-to-mean frame equal to that frame at RMSD
zero, and a final run that exits 0 printing the score 0, which `%.4f`
formats as `0.0000`. -/
theorem identical_frames_zero_score (traj : List (String × Frame)) (f : Frame)
    (hne : traj ≠ []) (hf : ∀ p ∈ traj, p.2 = f) (hfne : f ≠ []) :
    CalculateMeanCoords (mkInput traj) traj.length = .ok f ∧
    FindClosestToMean (mkInput traj) f = .ok f ∧
    RMSFrame f f = 0 ∧
    runPipeline (mkInput traj) = ⟨0, some 0, false, []⟩ ∧
    round4 0 = 0 := by
  have hn : 0 < f.length := by
    cases f with
    | nil => exact absurd rfl hfne
    | cons c cs => simp
  have hlen : ∀ p ∈ traj, p.2.length = f.length := by
    intro p hp
    rw [hf p hp]
  have hallf : ∀ g ∈ traj.map Prod.snd, g = f := by
    intro g hg
    obtain ⟨r, hr, hr2⟩ := List.mem_map.mp hg
    rw [← hr2]
    exact hf r hr
  have hmapne : traj.map Prod.snd ≠ [] := by
    simp only [ne_eq, List.map_eq_nil_iff]
    exact hne
  have hmaplen : (traj.map Prod.snd).length = traj.length := List.length_map _ _
  have hspec : specMeanFrame (traj.map Prod.snd) f.length traj.length = f := by
    have := specMeanFrame_const f (traj.map Prod.snd) hmapne hallf
    rw [hmaplen] at this
    exact this
  have hmean : CalculateMeanCoords (mkInput traj) traj.length = .ok f := by
    rw [CalculateMeanCoords_mkInput traj f.length traj.length hn hlen hne, hspec]
  have hsel : FindClosestToMean (mkInput traj) f = .ok f :=
    FindClosestToMean_const traj f hne hf hfne
  obtain ⟨c, hc1, _, hc3⟩ := runPipeline_closed traj f.length hn hlen hne
  rw [hspec, hsel] at hc1
  have hcf : c = f := by
    have := hc1
    injection this.symm
  rw [hcf] at hc3
  have hscore : ((traj.map Prod.snd).map
      (fun g => Real.sqrt ((MSDFrame f g : ℚ) : ℝ))).sum / (traj.length : ℝ) = 0 := by
    rw [List.sum_eq_zero, zero_div]
    intro x hx
    obtain ⟨g, hg, hg2⟩ := List.mem_map.mp hx
    rw [← hg2, hallf g hg, MSDFrame_self]
    simp
  rw [hscore] at hc3
  refine ⟨hmean, hsel, RMSFrame_self f, hc3, ?_⟩
  rw [round4]
  norm_num [Int.floor_eq_iff]

/-- Witness for C9 at a concrete three-copy trajectory. -/
theorem identical_frames_zero_score_witness :
    (([(">a", [⟨1, 2, 3⟩]), (">b", [⟨1, 2, 3⟩]), (">c", [⟨1, 2, 3⟩])] :
      List (String × Frame)) ≠ []) ∧
    (∀ p ∈ ([(">a", [⟨1, 2, 3⟩]), (">b", [⟨1, 2, 3⟩]), (">c", [⟨1, 2, 3⟩])] :
      List (String × Frame)), p.2 = [⟨1, 2, 3⟩]) ∧
    (([⟨1, 2, 3⟩] : Frame) ≠ []) ∧
    (CalculateMeanCoords
        (mkInput [(">a", [⟨1, 2, 3⟩]), (">b", [⟨1, 2, 3⟩]), (">c", [⟨1, 2, 3⟩])]) 3 =
      .ok [⟨1, 2, 3⟩] ∧
    FindClosestToMean
        (mkInput [(">a", [⟨1, 2, 3⟩]), (">b", [⟨1, 2, 3⟩]), (">c", [⟨1, 2, 3⟩])])
        [⟨1, 2, 3⟩] = .ok [⟨1, 2, 3⟩] ∧
    RMSFrame [⟨1, 2, 3⟩] [⟨1, 2, 3⟩] = 0 ∧
    runPipeline
        (mkInput [(">a", [⟨1, 2, 3⟩]), (">b", [⟨1, 2, 3⟩]), (">c", [⟨1, 2, 3⟩])]) =
      ⟨0, some 0, false, []⟩ ∧
    round4 0 = 0) :=
  ⟨by decide, by decide, by decide,
    identical_frames_zero_score
      [(">a", [⟨1, 2, 3⟩]), (">b", [⟨1, 2, 3⟩]), (">c", [⟨1, 2, 3⟩])]
      [⟨1, 2, 3⟩] (by decide) (by decide) (by decide)⟩

/-! ## Degenerate inputs and the CLI layer -/

/-- C7: on an input with no header line at all, the run dies with the
"No frames in trajectory" error before any pass 2–4 work, exits 1, and
prints nothing to stdout. -/
theorem no_frames_error (lines : List Line)
    (h : ∀ l ∈ lines, isHeaderLine l = false) :
    runPipeline lines =
      ⟨1, none, false, [("No frames in trajectory", some "")]⟩ := by
  have hc : CountFrames lines = 0 := by
    rw [CountFrames, List.length_eq_zero]
    rw [List.filter_eq_nil_iff]
    intro a ha
    simp [h a ha]
  rw [runPipeline, if_pos (by rw [hc]; norm_num)]

/-- Witness for C7: a file holding one non-header line. -/
theorem no_frames_error_witness :
    (∀ l ∈ ([Line.coord ⟨1, 1, 1⟩] : List Line), isHeaderLine l = false) ∧
    runPipeline [Line.coord ⟨1, 1, 1⟩] =
      ⟨1, none, false, [("No frames in trajectory", some "")]⟩ :=
  ⟨by decide, no_frames_error [Line.coord ⟨1, 1, 1⟩] (by decide)⟩

/-- C6 (documents the code bug): `ParseCmdLine` returns `TRUE`
unconditionally, so `main`'s `else Usage()` branch is dead code.  With no
argument the parsed file name is the empty string, `fopen("")` fails, and
the program exits 0 printing neither a usage message nor anything else;
likewise for an argument naming a file that cannot be opened. -/
theorem parseCmdLine_never_usage :
    ParseCmdLine [] = (true, "") ∧
    ParseCmdLine ["nosuchfile"] = (true, "nosuchfile") ∧
    runProgram [] (fun _ => none) = ⟨0, none, false, []⟩ ∧
    runProgram ["nosuchfile"] (fun _ => none) = ⟨0, none, false, []⟩ :=
  ⟨rfl, rfl, rfl, rfl⟩

/-- Appending anything after a zero-coordinate record is invisible to the
reader: the empty frame reads as `NULL`, which ends every consuming
loop. -/
theorem readerOut_append_empty (h : String) (rest : List (String × Frame)) :
    ∀ (good : List (String × Frame)), (∀ p ∈ good, p.2 ≠ []) →
    ∀ pending,
      readerOut pending (good ++ (h, ([] : Frame)) :: rest) =
        readerOut pending good := by
  intro good
  induction good with
  | nil =>
    intro _ pending
    rw [List.nil_append, readerOut_cons_nil]
    rfl
  | cons p g ih =>
    intro hne pending
    obtain ⟨h1, f1⟩ := p
    have hf1 : f1 ≠ [] := hne (h1, f1) (by simp)
    have hg : ∀ q ∈ g, (q.2 : Frame) ≠ [] := fun q hq => hne q (by simp [hq])
    rw [List.cons_append, readerOut_cons _ _ _ _ hf1, readerOut_cons _ _ _ _ hf1]
    refine congrArg (List.cons (pending, f1)) ?_
    cases g with
    | nil =>
      simp only [List.nil_append, readerOutTail, readerOut_cons_nil]
    | cons q g2 =>
      obtain ⟨h2, f2⟩ := q
      simp only [List.cons_append, readerOutTail]
      exact ih hg (some h2)

/-- C8: when some header line is immediately followed by another header
line (a frame with zero coordinate lines), the reader returns `NULL`
there, every pass treats that as end of stream — so the mean, selection
and RMSD passes see only the frames before the empty one — while
`CountFrames` still counts every header line, and the final run divides
the RMSD sum by that full header count. -/
theorem empty_frame_truncates (good : List (String × Frame)) (h : String)
    (rest : List (String × Frame)) (hgood : ∀ p ∈ good, p.2 ≠ []) :
    ReadFrames (mkInput (good ++ (h, ([] : Frame)) :: rest)) =
      ReadFrames (mkInput good) ∧
    CountFrames (mkInput (good ++ (h, ([] : Frame)) :: rest)) =
      good.length + 1 + rest.length ∧
    (∀ N, CalculateMeanCoords (mkInput (good ++ (h, ([] : Frame)) :: rest)) N =
      CalculateMeanCoords (mkInput good) N) ∧
    (∀ m, FindClosestToMean (mkInput (good ++ (h, ([] : Frame)) :: rest)) m =
      FindClosestToMean (mkInput good) m) ∧
    (∀ c N, CalculateMeanRMSD (mkInput (good ++ (h, ([] : Frame)) :: rest)) c N =
      CalculateMeanRMSD (mkInput good) c N) ∧
    runPipeline (mkInput (good ++ (h, ([] : Frame)) :: rest)) =
      runPassesWith (mkInput good) (good.length + 1 + rest.length) := by
  have h1 : ReadFrames (mkInput (good ++ (h, ([] : Frame)) :: rest)) =
      ReadFrames (mkInput good) := by
    rw [ReadFrames_mkInput, ReadFrames_mkInput,
      readerOut_append_empty h rest good hgood none]
  have hcount : CountFrames (mkInput (good ++ (h, ([] : Frame)) :: rest)) =
      good.length + 1 + rest.length := by
    rw [CountFrames_mkInput, List.length_append, List.length_cons]
    omega
  have hmean : ∀ N,
      CalculateMeanCoords (mkInput (good ++ (h, ([] : Frame)) :: rest)) N =
        CalculateMeanCoords (mkInput good) N := by
    intro N
    simp only [CalculateMeanCoords, h1]
  have hsel : ∀ m,
      FindClosestToMean (mkInput (good ++ (h, ([] : Frame)) :: rest)) m =
        FindClosestToMean (mkInput good) m := by
    intro m
    simp only [FindClosestToMean, h1]
  have hrmsd : ∀ c N,
      CalculateMeanRMSD (mkInput (good ++ (h, ([] : Frame)) :: rest)) c N =
        CalculateMeanRMSD (mkInput good) c N := by
    intro c N
    simp only [CalculateMeanRMSD, h1]
  refine ⟨h1, hcount, hmean, hsel, hrmsd, ?_⟩
  rw [runPipeline, hcount, if_neg (by omega)]
  simp only [runPassesWith, hmean, hsel, hrmsd]

/-- Witness for C8: one real frame, an empty frame, one more frame after
it.  The passes see only the first frame, while the count is 3. -/
theorem empty_frame_truncates_witness :
    (∀ p ∈ ([(">f1", [⟨0, 0, 0⟩])] : List (String × Frame)), p.2 ≠ []) ∧
    (ReadFrames (mkInput ([(">f1", [⟨0, 0, 0⟩])] ++ (">f2", ([] : Frame)) ::
        [(">f3", [⟨1, 1, 1⟩])])) =
      ReadFrames (mkInput [(">f1", [⟨0, 0, 0⟩])]) ∧
    CountFrames (mkInput ([(">f1", [⟨0, 0, 0⟩])] ++ (">f2", ([] : Frame)) ::
        [(">f3", [⟨1, 1, 1⟩])])) = 1 + 1 + 1 ∧
    (∀ N, CalculateMeanCoords (mkInput ([(">f1", [⟨0, 0, 0⟩])] ++
        (">f2", ([] : Frame)) :: [(">f3", [⟨1, 1, 1⟩])])) N =
      CalculateMeanCoords (mkInput [(">f1", [⟨0, 0, 0⟩])]) N) ∧
    (∀ m, FindClosestToMean (mkInput ([(">f1", [⟨0, 0, 0⟩])] ++
        (">f2", ([] : Frame)) :: [(">f3", [⟨1, 1, 1⟩])])) m =
      FindClosestToMean (mkInput [(">f1", [⟨0, 0, 0⟩])]) m) ∧
    (∀ c N, CalculateMeanRMSD (mkInput ([(">f1", [⟨0, 0, 0⟩])] ++
        (">f2", ([] : Frame)) :: [(">f3", [⟨1, 1, 1⟩])])) c N =
      CalculateMeanRMSD (mkInput [(">f1", [⟨0, 0, 0⟩])]) c N) ∧
    runPipeline (mkInput ([(">f1", [⟨0, 0, 0⟩])] ++ (">f2", ([] : Frame)) ::
        [(">f3", [⟨1, 1, 1⟩])])) =
      runPassesWith (mkInput [(">f1", [⟨0, 0, 0⟩])]) (1 + 1 + 1)) :=
  ⟨by decide,
    empty_frame_truncates [(">f1", [⟨0, 0, 0⟩])] ">f2" [(">f3", [⟨1, 1, 1⟩])]
      (by decide)⟩

/-! ## Shape mismatches -/

/-- Under no empty frames, the reader tags frame `k ≥ 2` with its own
header line. -/
theorem readerOutTail_eq_map : ∀ rest : List (String × Frame),
    (∀ p ∈ rest, p.2 ≠ []) →
    readerOutTail rest = rest.map (fun p => (some p.1, p.2)) := by
  intro rest
  induction rest with
  | nil => intro _; rfl
  | cons q r ih =>
    intro hne
    obtain ⟨h2, f2⟩ := q
    have hf2 : f2 ≠ [] := hne (h2, f2) (by simp)
    show readerOut (some h2) ((h2, f2) :: r) = _
    rw [readerOut_cons _ _ _ _ hf2, ih (fun p hp => hne p (by simp [hp]))]
    simp

/-- The accumulation loop fails at the first frame whose length differs
from the seed's, and the error carries that frame's own header. -/
theorem accum_mismatch_traj (N n : ℕ) : ∀ (rest : List (String × Frame)) (m : Frame),
    m.length = n →
    (∃ p ∈ rest, (p.2 : Frame).length ≠ n) →
    ∃ pre p post, rest = pre ++ p :: post ∧
      (∀ q ∈ pre, (q.2 : Frame).length = n) ∧ (p.2 : Frame).length ≠ n ∧
      accumFrames N m (rest.map (fun p => (some p.1, p.2))) = .error (some p.1) := by
  intro rest
  induction rest with
  | nil =>
    intro m _ hmis
    obtain ⟨p, hp, _⟩ := hmis
    exact absurd hp (by simp)
  | cons q r ih =>
    intro m hm hmis
    obtain ⟨h2, f2⟩ := q
    by_cases hf2 : f2.length = n
    · have hmf : m.length = f2.length := by rw [hm, hf2]
      have hm2 : (frameAdd m (frameSmul (1 / (N : ℚ)) f2)).length = n := by
        rw [frameAdd, List.length_zipWith, frameSmul, List.length_map, hm, hf2]
        simp
      have hmis2 : ∃ p ∈ r, (p.2 : Frame).length ≠ n := by
        obtain ⟨p, hp, hplen⟩ := hmis
        rcases List.mem_cons.mp hp with hp1 | hp2
        · rw [hp1] at hplen
          exact absurd hf2 hplen
        · exact ⟨p, hp2, hplen⟩
      obtain ⟨pre, p, post, hdec, hpre, hplen, hacc⟩ :=
        ih (frameAdd m (frameSmul (1 / (N : ℚ)) f2)) hm2 hmis2
      refine ⟨(h2, f2) :: pre, p, post, by rw [hdec, List.cons_append], ?_, hplen, ?_⟩
      · intro s hs
        rcases List.mem_cons.mp hs with hs1 | hs2
        · rw [hs1]; exact hf2
        · exact hpre s hs2
      · show accumFrames N m ((some h2, f2) :: r.map (fun p => (some p.1, p.2))) = _
        rw [accumFrames, AddFrame_eq m f2 N hmf]
        exact hacc
    · refine ⟨[], (h2, f2), r, by simp, by simp, hf2, ?_⟩
      show accumFrames N m ((some h2, f2) :: r.map (fun p => (some p.1, p.2))) = _
      rw [accumFrames, AddFrame]
      rw [if_neg (by rw [hm]; exact fun hcon => hf2 hcon.symm)]

/-- C5 (amended): on an input all of whose frames have at least one
coordinate line, if some frame's coordinate count disagrees with the
first (reference) frame's, the run aborts in the mean-coordinates pass
with exit status 1, prints the shape-mismatch diagnostic carrying the
first offending frame's own header, and prints no numeric score.  (A
frame with zero coordinate lines escapes this: the reader treats it as
end of stream — see the C8 theorem — which is what the counterexample to
the unamended claim exploits.) -/
theorem shape_mismatch_aborts (first : String × Frame)
    (rest : List (String × Frame))
    (hne : ∀ p ∈ first :: rest, (p.2 : Frame) ≠ [])
    (hmis : ∃ p ∈ rest, (p.2 : Frame).length ≠ (first.2 : Frame).length) :
    ∃ pre p post, rest = pre ++ p :: post ∧
      (∀ q ∈ pre, (q.2 : Frame).length = (first.2 : Frame).length) ∧
      (p.2 : Frame).length ≠ (first.2 : Frame).length ∧
      runPipeline (mkInput (first :: rest)) =
        ⟨1, none, false, [(MSG_ATOMMISMATCH, some p.1),
          ("Unable to calculate mean coordinates", some "")]⟩ := by
  obtain ⟨h1, f1⟩ := first
  have hf1ne : f1 ≠ [] := hne (h1, f1) (by simp)
  have hrne : ∀ p ∈ rest, (p.2 : Frame) ≠ [] := fun p hp => hne p (by simp [hp])
  have hread : ReadFrames (mkInput ((h1, f1) :: rest)) =
      (none, f1) :: readerOutTail rest := by
    rw [ReadFrames_mkInput, readerOut_cons _ _ _ _ hf1ne]
  have hseed : (f1.map (fun _ => zeroCoord)).length = f1.length := by
    rw [map_zero_replicate]
    simp
  obtain ⟨pre, p, post, hdec, hpre, hplen, hacc⟩ :=
    accum_mismatch_traj ((h1, f1) :: rest).length f1.length rest
      (frameAdd (f1.map (fun _ => zeroCoord))
        (frameSmul (1 / (((h1, f1) :: rest).length : ℚ)) f1))
      (by rw [frameAdd, List.length_zipWith, hseed, frameSmul, List.length_map]
          simp)
      hmis
  have hmean : CalculateMeanCoords (mkInput ((h1, f1) :: rest))
      ((h1, f1) :: rest).length = .error (.mismatch (some p.1)) := by
    simp only [CalculateMeanCoords, hread, readerOutTail_eq_map rest hrne]
    rw [accumFrames, AddFrame_eq _ f1 _ hseed]
    simp only [hacc]
  refine ⟨pre, p, post, hdec, hpre, hplen, ?_⟩
  rw [runPipeline, CountFrames_mkInput, if_neg (by simp)]
  rw [runPassesWith, hmean]

/-- Witness for C5 (amended) at a concrete two-frame input whose second
frame has one coordinate instead of two. -/
theorem shape_mismatch_aborts_witness :
    (∀ p ∈ ((">f1", [⟨0, 0, 0⟩, ⟨0, 0, 0⟩]) :: [(">f2", [⟨1, 1, 1⟩])] :
      List (String × Frame)), (p.2 : Frame) ≠ []) ∧
    (∃ p ∈ ([(">f2", [⟨1, 1, 1⟩])] : List (String × Frame)),
      (p.2 : Frame).length ≠ 2) ∧
    ∃ pre p post, ([(">f2", [⟨1, 1, 1⟩])] : List (String × Frame)) =
        pre ++ p :: post ∧
      (∀ q ∈ pre, (q.2 : Frame).length =
        (((">f1", [⟨0, 0, 0⟩, ⟨0, 0, 0⟩]) : String × Frame).2 : Frame).length) ∧
      (p.2 : Frame).length ≠
        (((">f1", [⟨0, 0, 0⟩, ⟨0, 0, 0⟩]) : String × Frame).2 : Frame).length ∧
      runPipeline (mkInput ((">f1", [⟨0, 0, 0⟩, ⟨0, 0, 0⟩]) ::
          [(">f2", [⟨1, 1, 1⟩])])) =
        ⟨1, none, false, [(MSG_ATOMMISMATCH, some p.1),
          ("Unable to calculate mean coordinates", some "")]⟩ :=
  ⟨by decide, by decide,
    shape_mismatch_aborts (">f1", [⟨0, 0, 0⟩, ⟨0, 0, 0⟩]) [(">f2", [⟨1, 1, 1⟩])]
      (by decide) (by decide)⟩

/-- C5 counterexample: the input `>f1 / 0 0 0 / >f2` contains a frame
(`>f2`, zero coordinate lines) whose coordinate count disagrees with the
reference frame's count of one — yet the run does not abort: it exits 0
and prints the numeric score 0.0000, because the empty frame reads as end
of stream and the RMSD pass sees only `>f1`. -/
theorem shape_mismatch_claim_counterexample :
    (([(">f1", [⟨0, 0, 0⟩]), (">f2", ([] : Frame))] :
        List (String × Frame)).map (fun p => (p.2 : Frame).length)) = [1, 0] ∧
    runPipeline (mkInput [(">f1", [⟨0, 0, 0⟩]), (">f2", ([] : Frame))]) =
      ⟨0, some 0, false, []⟩ ∧
    round4 0 = 0 := by
  refine ⟨by decide, ?_, by rw [round4]; norm_num [Int.floor_eq_iff]⟩
  have hread : ReadFrames (mkInput [((">f1" : String), ([⟨0, 0, 0⟩] : Frame)),
      (">f2", ([] : Frame))]) = [(none, [⟨0, 0, 0⟩])] := by decide
  have hcount : CountFrames (mkInput [((">f1" : String), ([⟨0, 0, 0⟩] : Frame)),
      (">f2", ([] : Frame))]) = 2 := by decide
  rw [runPipeline, hcount, if_neg (by omega), runPassesWith]
  have hmean : CalculateMeanCoords (mkInput [((">f1" : String),
      ([⟨0, 0, 0⟩] : Frame)), (">f2", ([] : Frame))]) 2 =
      .ok [⟨0, 0, 0⟩] := by
    norm_num [CalculateMeanCoords, hread, accumFrames, AddFrame, addCoord,
      zeroCoord]
  have hsel : FindClosestToMean (mkInput [((">f1" : String),
      ([⟨0, 0, 0⟩] : Frame)), (">f2", ([] : Frame))]) [⟨0, 0, 0⟩] =
      .ok [⟨0, 0, 0⟩] := by
    norm_num [FindClosestToMean, hread, selectLoop]
  have hrmsd : CalculateMeanRMSD (mkInput [((">f1" : String),
      ([⟨0, 0, 0⟩] : Frame)), (">f2", ([] : Frame))]) [⟨0, 0, 0⟩] 2 =
      .ok 0 := by
    rw [CalculateMeanRMSD, hread]
    norm_num [rmsdLoop, MSDFrame_self]
  simp [hmean, hsel, hrmsd]

/-! ## The concrete two-frame scenario -/

/-- C1: on the two-frame input `>f1/(0,0,0),(2,0,0)` and
`>f2/(0,0,0),(0,0,0)`, the pipeline computes the mean frame
`[(0,0,0),(1,0,0)]`, selects `f1` as the nearest-to-mean frame (both
frames tie at RMSD `√(1/2)` to the mean and the tie keeps the
earliest-seen frame), and the run exits 0 with the sole output
`√2/2 ≈ 0.70710678`, which `%.4f` prints as `0.7071`. -/
theorem concrete_two_frame_run :
    CalculateMeanCoords
        (mkInput [(">f1", [⟨0, 0, 0⟩, ⟨2, 0, 0⟩]), (">f2", [⟨0, 0, 0⟩, ⟨0, 0, 0⟩])]) 2 =
      .ok [⟨0, 0, 0⟩, ⟨1, 0, 0⟩] ∧
    FindClosestToMean
        (mkInput [(">f1", [⟨0, 0, 0⟩, ⟨2, 0, 0⟩]), (">f2", [⟨0, 0, 0⟩, ⟨0, 0, 0⟩])])
        [⟨0, 0, 0⟩, ⟨1, 0, 0⟩] = .ok [⟨0, 0, 0⟩, ⟨2, 0, 0⟩] ∧
    runPipeline
        (mkInput [(">f1", [⟨0, 0, 0⟩, ⟨2, 0, 0⟩]), (">f2", [⟨0, 0, 0⟩, ⟨0, 0, 0⟩])]) =
      ⟨0, some (Real.sqrt 2 / 2), false, []⟩ ∧
    round4 (Real.sqrt 2 / 2) = 7071 := by
  have hread : ReadFrames
      (mkInput [((">f1" : String), ([⟨0, 0, 0⟩, ⟨2, 0, 0⟩] : Frame)),
        (">f2", [⟨0, 0, 0⟩, ⟨0, 0, 0⟩])]) =
      [(none, [⟨0, 0, 0⟩, ⟨2, 0, 0⟩]), (some ">f2", [⟨0, 0, 0⟩, ⟨0, 0, 0⟩])] := by
    decide
  have hcount : CountFrames
      (mkInput [((">f1" : String), ([⟨0, 0, 0⟩, ⟨2, 0, 0⟩] : Frame)),
        (">f2", [⟨0, 0, 0⟩, ⟨0, 0, 0⟩])]) = 2 := by decide
  have hmean : CalculateMeanCoords
      (mkInput [((">f1" : String), ([⟨0, 0, 0⟩, ⟨2, 0, 0⟩] : Frame)),
        (">f2", [⟨0, 0, 0⟩, ⟨0, 0, 0⟩])]) 2 = .ok [⟨0, 0, 0⟩, ⟨1, 0, 0⟩] := by
    norm_num [CalculateMeanCoords, hread, accumFrames, AddFrame, addCoord, zeroCoord]
  have hsel : FindClosestToMean
      (mkInput [((">f1" : String), ([⟨0, 0, 0⟩, ⟨2, 0, 0⟩] : Frame)),
        (">f2", [⟨0, 0, 0⟩, ⟨0, 0, 0⟩])]) [⟨0, 0, 0⟩, ⟨1, 0, 0⟩] =
      .ok [⟨0, 0, 0⟩, ⟨2, 0, 0⟩] := by
    norm_num [FindClosestToMean, hread, selectLoop, MSDFrame, sumSqDev, sqDist]
  have hloop : rmsdLoop [⟨0, 0, 0⟩, ⟨2, 0, 0⟩]
      (ReadFrames (mkInput [((">f1" : String), ([⟨0, 0, 0⟩, ⟨2, 0, 0⟩] : Frame)),
        (">f2", [⟨0, 0, 0⟩, ⟨0, 0, 0⟩])])) = .ok [0, 2] := by
    rw [hread]
    norm_num [rmsdLoop, MSDFrame, sumSqDev, sqDist]
  have hrmsd : CalculateMeanRMSD
      (mkInput [((">f1" : String), ([⟨0, 0, 0⟩, ⟨2, 0, 0⟩] : Frame)),
        (">f2", [⟨0, 0, 0⟩, ⟨0, 0, 0⟩])]) [⟨0, 0, 0⟩, ⟨2, 0, 0⟩] 2 =
      .ok (Real.sqrt 2 / 2) := by
    rw [CalculateMeanRMSD, hloop]
    norm_num
  have hrun : runPipeline
      (mkInput [((">f1" : String), ([⟨0, 0, 0⟩, ⟨2, 0, 0⟩] : Frame)),
        (">f2", [⟨0, 0, 0⟩, ⟨0, 0, 0⟩])]) =
      ⟨0, some (Real.sqrt 2 / 2), false, []⟩ := by
    rw [runPipeline, hcount, if_neg (by omega), runPassesWith]
    simp [hmean, hsel, hrmsd]
  have hlow : (1.4141 : ℝ) < Real.sqrt 2 :=
    (Real.lt_sqrt (by norm_num)).mpr (by norm_num)
  have hhigh : Real.sqrt 2 < 1.4143 :=
    (Real.sqrt_lt' (by norm_num)).mpr (by norm_num)
  refine ⟨hmean, hsel, hrun, ?_⟩
  rw [round4, Int.floor_eq_iff]
  constructor
  · push_cast
    linarith
  · push_cast
    linarith

/-! ## Permutation (in)variance -/

/-- Pointwise frame addition is commutative. -/
theorem frameAdd_comm : ∀ a b : Frame, frameAdd a b = frameAdd b a := by
  intro a
  induction a with
  | nil =>
    intro b
    cases b with
    | nil => rfl
    | cons y ys => rfl
  | cons x xs ih =>
    intro b
    cases b with
    | nil => rfl
    | cons y ys =>
      simp only [frameAdd, List.zipWith_cons_cons] at *
      refine congrArg₂ List.cons ?_ (ih ys)
      simp only [coordAdd, Coord.mk.injEq]
      exact ⟨by ring, by ring, by ring⟩

/-- The frame sum is invariant under permutations of the frame list. -/
theorem frameSumList_perm (n : ℕ) (fs fs' : List Frame) (hp : fs.Perm fs') :
    frameSumList fs n = frameSumList fs' n := by
  induction hp with
  | nil => rfl
  | cons x _ ih => exact congrArg (frameAdd x) ih
  | swap x y l =>
    show frameAdd y (frameAdd x (frameSumList l n)) =
      frameAdd x (frameAdd y (frameSumList l n))
    rw [← frameAdd_assoc, frameAdd_comm y x, frameAdd_assoc]
  | trans _ _ ih1 ih2 => rw [ih1, ih2]

/-- C10 counterexample: two orderings of the same four frames give the
same mean frame but different final scores, because the earliest-seen
tie-break selects a different nearest frame.  Frames (two atoms,
x-coordinates only): `F1 = (1,0)`, `F2 = (0,1)`, `F4 = (2,0)`,
`F5 = (-3,-1)`; the mean frame is zero; `F1` and `F2` tie at mean
squared deviation `1/2` (RMSD `√(1/2)`) to it. -/
theorem permutation_claim_counterexample :
    List.Perm
      ([(">1", [⟨1, 0, 0⟩, ⟨0, 0, 0⟩]), (">2", [⟨0, 0, 0⟩, ⟨1, 0, 0⟩]),
        (">3", [⟨2, 0, 0⟩, ⟨0, 0, 0⟩]), (">4", [⟨-3, 0, 0⟩, ⟨-1, 0, 0⟩])] :
        List (String × Frame))
      [(">2", [⟨0, 0, 0⟩, ⟨1, 0, 0⟩]), (">1", [⟨1, 0, 0⟩, ⟨0, 0, 0⟩]),
        (">3", [⟨2, 0, 0⟩, ⟨0, 0, 0⟩]), (">4", [⟨-3, 0, 0⟩, ⟨-1, 0, 0⟩])] ∧
    CalculateMeanCoords
        (mkInput [(">1", [⟨1, 0, 0⟩, ⟨0, 0, 0⟩]), (">2", [⟨0, 0, 0⟩, ⟨1, 0, 0⟩]),
          (">3", [⟨2, 0, 0⟩, ⟨0, 0, 0⟩]), (">4", [⟨-3, 0, 0⟩, ⟨-1, 0, 0⟩])]) 4 =
      .ok [⟨0, 0, 0⟩, ⟨0, 0, 0⟩] ∧
    CalculateMeanCoords
        (mkInput [(">2", [⟨0, 0, 0⟩, ⟨1, 0, 0⟩]), (">1", [⟨1, 0, 0⟩, ⟨0, 0, 0⟩]),
          (">3", [⟨2, 0, 0⟩, ⟨0, 0, 0⟩]), (">4", [⟨-3, 0, 0⟩, ⟨-1, 0, 0⟩])]) 4 =
      .ok [⟨0, 0, 0⟩, ⟨0, 0, 0⟩] ∧
    runPipeline
        (mkInput [(">1", [⟨1, 0, 0⟩, ⟨0, 0, 0⟩]), (">2", [⟨0, 0, 0⟩, ⟨1, 0, 0⟩]),
          (">3", [⟨2, 0, 0⟩, ⟨0, 0, 0⟩]), (">4", [⟨-3, 0, 0⟩, ⟨-1, 0, 0⟩])]) =
      ⟨0, some ((1 + Real.sqrt (1 / 2) + Real.sqrt (17 / 2)) / 4), false, []⟩ ∧
    runPipeline
        (mkInput [(">2", [⟨0, 0, 0⟩, ⟨1, 0, 0⟩]), (">1", [⟨1, 0, 0⟩, ⟨0, 0, 0⟩]),
          (">3", [⟨2, 0, 0⟩, ⟨0, 0, 0⟩]), (">4", [⟨-3, 0, 0⟩, ⟨-1, 0, 0⟩])]) =
      ⟨0, some ((1 + Real.sqrt (5 / 2) + Real.sqrt (13 / 2)) / 4), false, []⟩ ∧
    (1 + Real.sqrt (1 / 2) + Real.sqrt (17 / 2)) / 4 ≠
      (1 + Real.sqrt (5 / 2) + Real.sqrt (13 / 2)) / 4 := by
  have hreadA : ReadFrames
      (mkInput [((">1" : String), ([⟨1, 0, 0⟩, ⟨0, 0, 0⟩] : Frame)),
        (">2", [⟨0, 0, 0⟩, ⟨1, 0, 0⟩]), (">3", [⟨2, 0, 0⟩, ⟨0, 0, 0⟩]),
        (">4", [⟨-3, 0, 0⟩, ⟨-1, 0, 0⟩])]) =
      [(none, [⟨1, 0, 0⟩, ⟨0, 0, 0⟩]), (some ">2", [⟨0, 0, 0⟩, ⟨1, 0, 0⟩]),
        (some ">3", [⟨2, 0, 0⟩, ⟨0, 0, 0⟩]), (some ">4", [⟨-3, 0, 0⟩, ⟨-1, 0, 0⟩])] := by
    decide
  have hreadB : ReadFrames
      (mkInput [((">2" : String), ([⟨0, 0, 0⟩, ⟨1, 0, 0⟩] : Frame)),
        (">1", [⟨1, 0, 0⟩, ⟨0, 0, 0⟩]), (">3", [⟨2, 0, 0⟩, ⟨0, 0, 0⟩]),
        (">4", [⟨-3, 0, 0⟩, ⟨-1, 0, 0⟩])]) =
      [(none, [⟨0, 0, 0⟩, ⟨1, 0, 0⟩]), (some ">1", [⟨1, 0, 0⟩, ⟨0, 0, 0⟩]),
        (some ">3", [⟨2, 0, 0⟩, ⟨0, 0, 0⟩]), (some ">4", [⟨-3, 0, 0⟩, ⟨-1, 0, 0⟩])] := by
    decide
  have hcountA : CountFrames
      (mkInput [((">1" : String), ([⟨1, 0, 0⟩, ⟨0, 0, 0⟩] : Frame)),
        (">2", [⟨0, 0, 0⟩, ⟨1, 0, 0⟩]), (">3", [⟨2, 0, 0⟩, ⟨0, 0, 0⟩]),
        (">4", [⟨-3, 0, 0⟩, ⟨-1, 0, 0⟩])]) = 4 := by decide
  have hcountB : CountFrames
      (mkInput [((">2" : String), ([⟨0, 0, 0⟩, ⟨1, 0, 0⟩] : Frame)),
        (">1", [⟨1, 0, 0⟩, ⟨0, 0, 0⟩]), (">3", [⟨2, 0, 0⟩, ⟨0, 0, 0⟩]),
        (">4", [⟨-3, 0, 0⟩, ⟨-1, 0, 0⟩])]) = 4 := by decide
  have hmeanA : CalculateMeanCoords
      (mkInput [((">1" : String), ([⟨1, 0, 0⟩, ⟨0, 0, 0⟩] : Frame)),
        (">2", [⟨0, 0, 0⟩, ⟨1, 0, 0⟩]), (">3", [⟨2, 0, 0⟩, ⟨0, 0, 0⟩]),
        (">4", [⟨-3, 0, 0⟩, ⟨-1, 0, 0⟩])]) 4 = .ok [⟨0, 0, 0⟩, ⟨0, 0, 0⟩] := by
    norm_num [CalculateMeanCoords, hreadA, accumFrames, AddFrame, addCoord, zeroCoord]
  have hmeanB : CalculateMeanCoords
      (mkInput [((">2" : String), ([⟨0, 0, 0⟩, ⟨1, 0, 0⟩] : Frame)),
        (">1", [⟨1, 0, 0⟩, ⟨0, 0, 0⟩]), (">3", [⟨2, 0, 0⟩, ⟨0, 0, 0⟩]),
        (">4", [⟨-3, 0, 0⟩, ⟨-1, 0, 0⟩])]) 4 = .ok [⟨0, 0, 0⟩, ⟨0, 0, 0⟩] := by
    norm_num [CalculateMeanCoords, hreadB, accumFrames, AddFrame, addCoord, zeroCoord]
  have hselA : FindClosestToMean
      (mkInput [((">1" : String), ([⟨1, 0, 0⟩, ⟨0, 0, 0⟩] : Frame)),
        (">2", [⟨0, 0, 0⟩, ⟨1, 0, 0⟩]), (">3", [⟨2, 0, 0⟩, ⟨0, 0, 0⟩]),
        (">4", [⟨-3, 0, 0⟩, ⟨-1, 0, 0⟩])]) [⟨0, 0, 0⟩, ⟨0, 0, 0⟩] =
      .ok [⟨1, 0, 0⟩, ⟨0, 0, 0⟩] := by
    norm_num [FindClosestToMean, hreadA, selectLoop, MSDFrame, sumSqDev, sqDist]
  have hselB : FindClosestToMean
      (mkInput [((">2" : String), ([⟨0, 0, 0⟩, ⟨1, 0, 0⟩] : Frame)),
        (">1", [⟨1, 0, 0⟩, ⟨0, 0, 0⟩]), (">3", [⟨2, 0, 0⟩, ⟨0, 0, 0⟩]),
        (">4", [⟨-3, 0, 0⟩, ⟨-1, 0, 0⟩])]) [⟨0, 0, 0⟩, ⟨0, 0, 0⟩] =
      .ok [⟨0, 0, 0⟩, ⟨1, 0, 0⟩] := by
    norm_num [FindClosestToMean, hreadB, selectLoop, MSDFrame, sumSqDev, sqDist]
  have hloopA : rmsdLoop [⟨1, 0, 0⟩, ⟨0, 0, 0⟩]
      (ReadFrames (mkInput [((">1" : String), ([⟨1, 0, 0⟩, ⟨0, 0, 0⟩] : Frame)),
        (">2", [⟨0, 0, 0⟩, ⟨1, 0, 0⟩]), (">3", [⟨2, 0, 0⟩, ⟨0, 0, 0⟩]),
        (">4", [⟨-3, 0, 0⟩, ⟨-1, 0, 0⟩])])) = .ok [0, 1, 1 / 2, 17 / 2] := by
    rw [hreadA]
    norm_num [rmsdLoop, MSDFrame, sumSqDev, sqDist]
  have hloopB : rmsdLoop [⟨0, 0, 0⟩, ⟨1, 0, 0⟩]
      (ReadFrames (mkInput [((">2" : String), ([⟨0, 0, 0⟩, ⟨1, 0, 0⟩] : Frame)),
        (">1", [⟨1, 0, 0⟩, ⟨0, 0, 0⟩]), (">3", [⟨2, 0, 0⟩, ⟨0, 0, 0⟩]),
        (">4", [⟨-3, 0, 0⟩, ⟨-1, 0, 0⟩])])) = .ok [0, 1, 5 / 2, 13 / 2] := by
    rw [hreadB]
    norm_num [rmsdLoop, MSDFrame, sumSqDev, sqDist]
  have hrmsdA : CalculateMeanRMSD
      (mkInput [((">1" : String), ([⟨1, 0, 0⟩, ⟨0, 0, 0⟩] : Frame)),
        (">2", [⟨0, 0, 0⟩, ⟨1, 0, 0⟩]), (">3", [⟨2, 0, 0⟩, ⟨0, 0, 0⟩]),
        (">4", [⟨-3, 0, 0⟩, ⟨-1, 0, 0⟩])]) [⟨1, 0, 0⟩, ⟨0, 0, 0⟩] 4 =
      .ok ((1 + Real.sqrt (1 / 2) + Real.sqrt (17 / 2)) / 4) := by
    rw [CalculateMeanRMSD, hloopA]
    simp only [List.map_cons, List.map_nil, List.sum_cons, List.sum_nil]
    push_cast
    rw [Real.sqrt_zero, Real.sqrt_one]
    norm_num
    ring
  have hrmsdB : CalculateMeanRMSD
      (mkInput [((">2" : String), ([⟨0, 0, 0⟩, ⟨1, 0, 0⟩] : Frame)),
        (">1", [⟨1, 0, 0⟩, ⟨0, 0, 0⟩]), (">3", [⟨2, 0, 0⟩, ⟨0, 0, 0⟩]),
        (">4", [⟨-3, 0, 0⟩, ⟨-1, 0, 0⟩])]) [⟨0, 0, 0⟩, ⟨1, 0, 0⟩] 4 =
      .ok ((1 + Real.sqrt (5 / 2) + Real.sqrt (13 / 2)) / 4) := by
    rw [CalculateMeanRMSD, hloopB]
    simp only [List.map_cons, List.map_nil, List.sum_cons, List.sum_nil]
    push_cast
    rw [Real.sqrt_zero, Real.sqrt_one]
    norm_num
    ring
  have hne : (1 + Real.sqrt (1 / 2) + Real.sqrt (17 / 2)) / 4 ≠
      (1 + Real.sqrt (5 / 2) + Real.sqrt (13 / 2)) / 4 := by
    have h1 : Real.sqrt (1 / 2) < 0.71 :=
      (Real.sqrt_lt' (by norm_num)).mpr (by norm_num)
    have h2 : Real.sqrt (17 / 2) < 2.92 :=
      (Real.sqrt_lt' (by norm_num)).mpr (by norm_num)
    have h3 : (1.58 : ℝ) < Real.sqrt (5 / 2) :=
      (Real.lt_sqrt (by norm_num)).mpr (by norm_num)
    have h4 : (2.54 : ℝ) < Real.sqrt (13 / 2) :=
      (Real.lt_sqrt (by norm_num)).mpr (by norm_num)
    exact ne_of_lt (by linarith)
  refine ⟨List.Perm.swap _ _ _, hmeanA, hmeanB, ?_, ?_, hne⟩
  · rw [runPipeline, hcountA, if_neg (by omega), runPassesWith]
    simp [hmeanA, hselA, hrmsdA]
  · rw [runPipeline, hcountB, if_neg (by omega), runPassesWith]
    simp [hmeanB, hselB, hrmsdB]

/-- C10 (amended): reordering the frames of a uniform trajectory never
changes the mean frame; and whenever a single frame (as a coordinate
list) attains the minimum RMSD to that mean, reordering also preserves
the selected nearest frame, the final score, and the entire run output.
(When two distinct frames tie at the minimum, the earliest-seen
tie-break can select different frames under reordering and change the
score — see the counterexample theorem.) -/
theorem permutation_invariance_amended (traj traj' : List (String × Frame))
    (n : ℕ) (hn : 0 < n) (hlen : ∀ p ∈ traj, p.2.length = n)
    (hperm : (traj.map Prod.snd).Perm (traj'.map Prod.snd))
    (hne : traj ≠ []) :
    CalculateMeanCoords (mkInput traj') traj'.length =
      CalculateMeanCoords (mkInput traj) traj.length ∧
    ∀ c, c ∈ traj.map Prod.snd →
      (∀ g ∈ traj.map Prod.snd, g ≠ c →
        RMSFrame (specMeanFrame (traj.map Prod.snd) n traj.length) c <
          RMSFrame (specMeanFrame (traj.map Prod.snd) n traj.length) g) →
      FindClosestToMean (mkInput traj)
          (specMeanFrame (traj.map Prod.snd) n traj.length) = .ok c ∧
      FindClosestToMean (mkInput traj')
          (specMeanFrame (traj.map Prod.snd) n traj.length) = .ok c ∧
      runPipeline (mkInput traj) = runPipeline (mkInput traj') := by
  have hlenmap : ∀ f ∈ traj.map Prod.snd, f.length = n := by
    intro f hf
    obtain ⟨r, hr, hr2⟩ := List.mem_map.mp hf
    rw [← hr2]
    exact hlen r hr
  have hlen' : ∀ p ∈ traj', p.2.length = n := by
    intro p hp
    have : p.2 ∈ traj'.map Prod.snd := List.mem_map_of_mem Prod.snd hp
    exact hlenmap p.2 (hperm.mem_iff.mpr this)
  have hNeq : traj'.length = traj.length := by
    have := hperm.length_eq
    simpa using this.symm
  have hne' : traj' ≠ [] := by
    intro hcon
    rw [hcon] at hNeq
    simp at hNeq
    exact hne (List.length_eq_zero.mp hNeq.symm)
  have hspec' : specMeanFrame (traj'.map Prod.snd) n traj'.length =
      specMeanFrame (traj.map Prod.snd) n traj.length := by
    rw [specMeanFrame, specMeanFrame, hNeq,
      frameSumList_perm n _ _ hperm.symm]
  have hmlen : (specMeanFrame (traj.map Prod.snd) n traj.length).length = n := by
    rw [specMeanFrame, frameSmul, List.length_map]
    exact frameSumList_length n _ hlenmap
  constructor
  · rw [CalculateMeanCoords_mkInput traj n traj.length hn hlen hne,
      CalculateMeanCoords_mkInput traj' n traj'.length hn hlen' hne', hspec']
  · intro c hc huniq
    have hclen : (specMeanFrame (traj.map Prod.snd) n traj.length).length =
        c.length := by rw [hmlen, hlenmap c hc]
    have hselc : FindClosestToMean (mkInput traj)
        (specMeanFrame (traj.map Prod.snd) n traj.length) = .ok c := by
      obtain ⟨c0, pre, post, hsel, hdec, _, hmin⟩ :=
        FindClosestToMean_mkInput traj n
          (specMeanFrame (traj.map Prod.snd) n traj.length) hn hmlen hlen hne
      have hc0 : c0 ∈ traj.map Prod.snd := by rw [hdec]; simp
      have hc0c : c0 = c := by
        by_contra hcc
        have hlt := huniq c0 hc0 hcc
        have hle := hmin c hc
        have hc0len : (specMeanFrame (traj.map Prod.snd) n traj.length).length =
            c0.length := by rw [hmlen, hlenmap c0 hc0]
        have := (RMSFrame_lt_iff _ c c0 hclen hc0len).mp hlt
        exact absurd (lt_of_le_of_lt hle this) (lt_irrefl _)
      rw [← hc0c]
      exact hsel
    have hselc' : FindClosestToMean (mkInput traj')
        (specMeanFrame (traj.map Prod.snd) n traj.length) = .ok c := by
      obtain ⟨c0, pre, post, hsel, hdec, _, hmin⟩ :=
        FindClosestToMean_mkInput traj' n
          (specMeanFrame (traj.map Prod.snd) n traj.length) hn hmlen hlen' hne'
      have hc0' : c0 ∈ traj'.map Prod.snd := by rw [hdec]; simp
      have hc0 : c0 ∈ traj.map Prod.snd := hperm.mem_iff.mpr hc0'
      have hc' : c ∈ traj'.map Prod.snd := hperm.mem_iff.mp hc
      have hc0c : c0 = c := by
        by_contra hcc
        have hlt := huniq c0 hc0 hcc
        have hle := hmin c hc'
        have hc0len : (specMeanFrame (traj.map Prod.snd) n traj.length).length =
            c0.length := by rw [hmlen, hlenmap c0 hc0]
        have := (RMSFrame_lt_iff _ c c0 hclen hc0len).mp hlt
        exact absurd (lt_of_le_of_lt hle this) (lt_irrefl _)
      rw [← hc0c]
      exact hsel
    refine ⟨hselc, hselc', ?_⟩
    obtain ⟨c1, hc1sel, _, hc1run⟩ := runPipeline_closed traj n hn hlen hne
    obtain ⟨c2, hc2sel, _, hc2run⟩ := runPipeline_closed traj' n hn hlen' hne'
    rw [hselc] at hc1sel
    rw [hspec', hselc'] at hc2sel
    have hc1 : c1 = c := by injection hc1sel.symm
    have hc2 : c2 = c := by injection hc2sel.symm
    rw [hc1] at hc1run
    rw [hc2] at hc2run
    rw [hc1run, hc2run, hNeq,
      (hperm.map (fun f => Real.sqrt ((MSDFrame c f : ℚ) : ℝ))).sum_eq]

/-- Witness for C10 (amended) at a two-frame trajectory of equal frames
and its reversal. -/
theorem permutation_invariance_amended_witness :
    (CalculateMeanCoords
        (mkInput [(">b", [⟨0, 0, 0⟩]), (">a", [⟨0, 0, 0⟩])])
        ([((">b" : String), ([⟨0, 0, 0⟩] : Frame)), (">a", [⟨0, 0, 0⟩])]).length =
      CalculateMeanCoords
        (mkInput [(">a", [⟨0, 0, 0⟩]), (">b", [⟨0, 0, 0⟩])])
        ([((">a" : String), ([⟨0, 0, 0⟩] : Frame)), (">b", [⟨0, 0, 0⟩])]).length) ∧
    FindClosestToMean (mkInput [(">a", [⟨0, 0, 0⟩]), (">b", [⟨0, 0, 0⟩])])
        (specMeanFrame [[⟨0, 0, 0⟩], [⟨0, 0, 0⟩]] 1 2) = .ok [⟨0, 0, 0⟩] ∧
    FindClosestToMean (mkInput [(">b", [⟨0, 0, 0⟩]), (">a", [⟨0, 0, 0⟩])])
        (specMeanFrame [[⟨0, 0, 0⟩], [⟨0, 0, 0⟩]] 1 2) = .ok [⟨0, 0, 0⟩] ∧
    runPipeline (mkInput [(">a", [⟨0, 0, 0⟩]), (">b", [⟨0, 0, 0⟩])]) =
      runPipeline (mkInput [(">b", [⟨0, 0, 0⟩]), (">a", [⟨0, 0, 0⟩])]) := by
  have h := permutation_invariance_amended
    [(">a", [⟨0, 0, 0⟩]), (">b", [⟨0, 0, 0⟩])]
    [(">b", [⟨0, 0, 0⟩]), (">a", [⟨0, 0, 0⟩])] 1 Nat.one_pos
    (by decide) (List.Perm.refl _) (by decide)
  obtain ⟨h1, h2⟩ := h
  have h3 := h2 [⟨0, 0, 0⟩] (by decide)
    (fun g hg hgc => absurd (by simpa using hg) hgc)
  exact ⟨h1, h3.1, h3.2.1, h3.2.2⟩

end Flexcalc
